import Mathlib

/-!
# Multi-level page table: shallow embedding and verification

Shallow embedding of `src/mlpt.c` (configured by `src/config.h`:
`LEVELS = 3`, `POBITS = 10`).  Machine words (`size_t`) are modelled by
`Nat`; physical memory is an association list from page-aligned block
addresses to their contents (a table of `ENTRIES_PER_TABLE` entries).
`posix_memalign` is modelled by a success oracle indexed by the
allocation counter; fresh blocks are consecutive page-aligned addresses,
which captures the guarantees the C code relies on (page-aligned,
zero-filled, distinct from every live block, nonzero).
-/

namespace Mlpt

/-- `#define LEVELS 3` from `config.h`. -/
def LEVELS : Nat := 3

/-- `#define POBITS 10` from `config.h`. -/
def POBITS : Nat := 10

/-- `#define PAGE_SIZE (1UL << POBITS)`. -/
def PAGE_SIZE : Nat := 1 <<< POBITS

/-- `#define ENTRIES_PER_TABLE (PAGE_SIZE / sizeof(size_t))`; `sizeof(size_t) = 8`. -/
def ENTRIES_PER_TABLE : Nat := PAGE_SIZE / 8

/-- `#define VALID_FLAG 1UL`. -/
def VALID_FLAG : Nat := 1

/-- `#define BITS_PER_LEVEL (POBITS - 3)`. -/
def BITS_PER_LEVEL : Nat := POBITS - 3

/-- `#define LEVEL_INDEX_MASK ((1UL << BITS_PER_LEVEL) - 1)`. -/
def LEVEL_INDEX_MASK : Nat := (1 <<< BITS_PER_LEVEL) - 1

/-- `~0UL`, the 64-bit all-ones sentinel returned by `translate` for
unmapped addresses. -/
def NOT_MAPPED : Nat := 2 ^ 64 - 1

/-- `ENTRY_TO_PHYS_ADDR(pte) = pte & PAGE_MASK` with
`PAGE_MASK = ~(PAGE_SIZE - 1)`: clearing the low `POBITS` bits.  On `Nat`
(all values of interest fit in 64 bits) this is rounding down to a
multiple of `PAGE_SIZE`. -/
def ENTRY_TO_PHYS_ADDR (pte : Nat) : Nat := pte / PAGE_SIZE * PAGE_SIZE

/-- `extract_level_index` from `mlpt.c`:
`(virtual_addr >> (POBITS + level * BITS_PER_LEVEL)) & LEVEL_INDEX_MASK`. -/
def extract_level_index (virtual_addr : Nat) (level : Nat) : Nat :=
  (virtual_addr >>> (POBITS + level * BITS_PER_LEVEL)) &&& LEVEL_INDEX_MASK

/-- The page offset `virtual_addr & (PAGE_SIZE - 1)` computed in `translate`. -/
def page_offset (virtual_addr : Nat) : Nat := virtual_addr &&& (PAGE_SIZE - 1)

/-- `is_address_valid` from `mlpt.c`: every level's index is `< ENTRIES_PER_TABLE`.
The C loop runs `level = LEVELS-1 .. 0`; the conjunction is order-independent. -/
def is_address_valid (virtual_addr : Nat) : Bool :=
  (List.range LEVELS).all fun level =>
    decide (extract_level_index virtual_addr level < ENTRIES_PER_TABLE)

/-- The truthiness test `pte & VALID_FLAG` applied throughout `mlpt.c`. -/
def isValidPte (pte : Nat) : Bool := pte &&& VALID_FLAG != 0

/-- One page table (or data page): the contents of one page-aligned block,
an array of `ENTRIES_PER_TABLE` word-sized entries. -/
abbrev Table := List Nat

/-- Physical memory: live page-aligned blocks, addressed by their base. -/
abbrev Heap := List (Nat × Table)

/-- A zero-filled fresh block (`memset(new_page, 0, PAGE_SIZE)`). -/
def zeroTable : Table := List.replicate ENTRIES_PER_TABLE 0

/-- Read the table stored at base address `a` (dereferencing `(size_t*)a`).
Reads of addresses that are not live blocks return a zero block; verified
executions never perform such reads. -/
def heapGet : Heap → Nat → Table
  | [], _ => zeroTable
  | (b, t) :: rest, a => if a = b then t else heapGet rest a

/-- Store `v` into entry `i` of the table at base address `a`
(`((size_t*)a)[i] = v`). -/
def heapSetEntry : Heap → Nat → Nat → Nat → Heap
  | [], _, _, _ => []
  | (b, t) :: rest, a, i, v =>
    if a = b then (b, t.set i v) :: rest else (b, t) :: heapSetEntry rest a i v

/-- `free` the block at base address `a`. -/
def heapFree : Heap → Nat → Heap
  | [], _ => []
  | (b, t) :: rest, a => if a = b then rest else (b, t) :: heapFree rest a

/-- The addresses of the live blocks. -/
def heapKeys (h : Heap) : List Nat := h.map Prod.fst

/-- `current_table[table_index]`: read entry `i` of the table at `a`. -/
def readEntry (h : Heap) (a i : Nat) : Nat := (heapGet h a).getD i 0

/-- The `table_empty` scan of `page_deallocate`: every entry of the block
at `a` fails the `VALID_FLAG` test. -/
def tableEmpty (h : Heap) (a : Nat) : Bool :=
  (heapGet h a).all fun e => !isValidPte e

/-- Program state: live memory, the `ptbr` global, and the allocation
counter (`next * PAGE_SIZE` is the next fresh block's address). -/
structure State where
  heap : Heap
  ptbr : Nat
  next : Nat
deriving DecidableEq, Repr

/-- The initial state: `ptbr = 0`, no live blocks. -/
def initState : State := { heap := [], ptbr := 0, next := 1 }

/-- `allocate_aligned_page` from `mlpt.c`: ask the backing allocator
(modelled by the oracle `ora`, consulted at the current allocation
counter) for a fresh page-aligned zero-filled block; `none` models
`posix_memalign` failure, in which case no state changes. -/
def allocate_aligned_page (ora : Nat → Bool) (s : State) : Option (Nat × State) :=
  if ora s.next then
    let a := s.next * PAGE_SIZE
    some (a, { s with next := s.next + 1, heap := (a, zeroTable) :: s.heap })
  else
    none

/-- The level walk of `translate` (`for level = LEVELS-1 .. 0`), with
`cur` the current table's base address. -/
def translate_walk (h : Heap) (va : Nat) : Nat → Nat → Nat
  | cur, 0 =>
    let idx := extract_level_index va 0
    if ENTRIES_PER_TABLE ≤ idx then NOT_MAPPED
    else
      let e := readEntry h cur idx
      if !isValidPte e then NOT_MAPPED
      else ENTRY_TO_PHYS_ADDR e ||| page_offset va
  | cur, level + 1 =>
    let idx := extract_level_index va (level + 1)
    if ENTRIES_PER_TABLE ≤ idx then NOT_MAPPED
    else
      let e := readEntry h cur idx
      if !isValidPte e then NOT_MAPPED
      else translate_walk h va (ENTRY_TO_PHYS_ADDR e) level

/-- `translate` from `mlpt.c`.  It is read-only: it is a function of the
state that returns only the translated address. -/
def translate (s : State) (va : Nat) : Nat :=
  if s.ptbr = 0 then NOT_MAPPED
  else translate_walk s.heap va s.ptbr (LEVELS - 1)

/-- The walk of `page_allocate`: levels `LEVELS-1 .. 1` create missing
intermediate tables (`for level = LEVELS-1; level > 0`), level `0`
creates the missing data page.  On allocation failure the call aborts,
keeping the state already built. -/
def alloc_walk (ora : Nat → Bool) (va : Nat) : Nat → State → Nat → State
  | 0, s, cur =>
    let idx := extract_level_index va 0
    if isValidPte (readEntry s.heap cur idx) then s
    else
      match allocate_aligned_page ora s with
      | none => s
      | some (a, s1) =>
        { s1 with heap := heapSetEntry s1.heap cur idx (ENTRY_TO_PHYS_ADDR a ||| VALID_FLAG) }
  | level + 1, s, cur =>
    let idx := extract_level_index va (level + 1)
    let step : Option State :=
      if isValidPte (readEntry s.heap cur idx) then some s
      else
        match allocate_aligned_page ora s with
        | none => none
        | some (a, s1) =>
          some { s1 with
                 heap := heapSetEntry s1.heap cur idx (ENTRY_TO_PHYS_ADDR a ||| VALID_FLAG) }
    match step with
    | none => s
    | some s1 => alloc_walk ora va level s1 (ENTRY_TO_PHYS_ADDR (readEntry s1.heap cur idx))

/-- `page_allocate` from `mlpt.c`. -/
def page_allocate (ora : Nat → Bool) (s : State) (va : Nat) : State :=
  if !is_address_valid va then s
  else if s.ptbr = 0 then
    match allocate_aligned_page ora s with
    | none => s
    | some (r, s1) =>
      let s2 := { s1 with ptbr := r }
      alloc_walk ora va (LEVELS - 1) s2 s2.ptbr
  else
    alloc_walk ora va (LEVELS - 1) s s.ptbr

/-- The validating downward walk of `page_deallocate`, recording
`(tables[level], indices[level])` for each level; the returned path lists
level `0` first and level `LEVELS-1` (the root) last.  `none` when some
level's entry fails the `VALID_FLAG` test. -/
def dealloc_walk (h : Heap) (va : Nat) : Nat → Nat → Option (List (Nat × Nat))
  | cur, 0 =>
    let idx := extract_level_index va 0
    if isValidPte (readEntry h cur idx) then some [(cur, idx)] else none
  | cur, level + 1 =>
    let idx := extract_level_index va (level + 1)
    if isValidPte (readEntry h cur idx) then
      match dealloc_walk h va (ENTRY_TO_PHYS_ADDR (readEntry h cur idx)) level with
      | none => none
      | some path => some (path ++ [(cur, idx)])
    else none

/-- The upward cleanup loop of `page_deallocate`
(`for level = 1; level < LEVELS`): while the child table on the recorded
path is entirely empty, free it and clear its parent's entry; stop at the
first non-empty child.  The root, last on the path, is never a child. -/
def dealloc_cleanup (h : Heap) : List (Nat × Nat) → Heap
  | (child, _) :: (parent, pidx) :: rest =>
    if tableEmpty h child then
      dealloc_cleanup (heapSetEntry (heapFree h child) parent pidx 0) ((parent, pidx) :: rest)
    else h
  | _ => h

/-- `page_deallocate` from `mlpt.c`: returns the C `int` result as a
`Bool` together with the new state. -/
def page_deallocate (s : State) (va : Nat) : Bool × State :=
  if s.ptbr = 0 then (false, s)
  else
    match dealloc_walk s.heap va s.ptbr (LEVELS - 1) with
    | none => (false, s)
    | some path =>
      match path with
      | (t0, i0) :: _ =>
        let h1 := heapSetEntry s.heap t0 i0 0
        (true, { s with heap := dealloc_cleanup h1 path })
      | [] => (false, s)

/-! ## Arithmetic and codec lemmas -/

theorem PAGE_SIZE_eq : PAGE_SIZE = 2 ^ 10 := rfl

theorem PAGE_SIZE_pos : 0 < PAGE_SIZE := by decide

/-- Disjoint-bit reassembly: or-ing a page-aligned address with an
in-page offset is addition. -/
theorem aligned_or_eq_add {a b : Nat} (ha : a % PAGE_SIZE = 0) (hb : b < PAGE_SIZE) :
    a ||| b = a + b := by
  have hdvd : PAGE_SIZE ∣ a := Nat.dvd_of_mod_eq_zero ha
  obtain ⟨q, hq⟩ := hdvd
  subst hq
  rw [PAGE_SIZE_eq] at hb ⊢
  exact (Nat.mul_add_lt_is_or hb q).symm

theorem entry_to_phys_mod (pte : Nat) : ENTRY_TO_PHYS_ADDR pte % PAGE_SIZE = 0 := by
  unfold ENTRY_TO_PHYS_ADDR
  exact Nat.mul_mod_left _ _

/-- Reading back an installed PTE's address bits: for a page-aligned `a`,
`ENTRY_TO_PHYS_ADDR (a | VALID_FLAG) = a`. -/
theorem entry_to_phys_or_one {a : Nat} (ha : a % PAGE_SIZE = 0) :
    ENTRY_TO_PHYS_ADDR (a ||| VALID_FLAG) = a := by
  have h1 : a ||| VALID_FLAG = a + 1 := aligned_or_eq_add ha (by decide)
  obtain ⟨q, hq⟩ := Nat.dvd_of_mod_eq_zero ha
  subst hq
  unfold ENTRY_TO_PHYS_ADDR
  rw [h1, Nat.mul_add_div PAGE_SIZE_pos]
  have h10 : (1 : Nat) / PAGE_SIZE = 0 := by decide
  rw [h10, Nat.add_zero, Nat.mul_comm]

/-- An installed PTE passes the `VALID_FLAG` test. -/
theorem isValidPte_or_one (x : Nat) : isValidPte (x ||| VALID_FLAG) = true := by
  unfold isValidPte VALID_FLAG
  have : (x ||| 1) &&& 1 = (x ||| 1) % 2 := Nat.and_one_is_mod _
  have h2 : (x ||| 1) % 2 = 1 := by
    rw [Nat.or_mod_two_eq_one]
    right; decide
  simp [this, h2]

theorem isValidPte_zero : isValidPte 0 = false := by decide

/-- Every per-level index is strictly below the table capacity: the mask
is `2^(POBITS-3) - 1` while the capacity is `2^(POBITS-3)`. -/
theorem extract_level_index_lt (va level : Nat) :
    extract_level_index va level < ENTRIES_PER_TABLE := by
  unfold extract_level_index
  have h : (va >>> (POBITS + level * BITS_PER_LEVEL)) &&& LEVEL_INDEX_MASK
      ≤ LEVEL_INDEX_MASK := Nat.and_le_right
  exact Nat.lt_of_le_of_lt h (by decide)

/-- `is_address_valid` accepts every input under this configuration. -/
theorem is_address_valid_always (va : Nat) : is_address_valid va = true := by
  unfold is_address_valid
  rw [List.all_eq_true]
  intro l _
  simp [extract_level_index_lt]

theorem page_offset_lt (va : Nat) : page_offset va < PAGE_SIZE := by
  unfold page_offset
  exact Nat.lt_of_le_of_lt Nat.and_le_right (by decide)

theorem page_offset_eq_mod (va : Nat) : page_offset va = va % 2 ^ POBITS := by
  unfold page_offset
  have : PAGE_SIZE - 1 = 2 ^ POBITS - 1 := by decide
  rw [this, Nat.and_pow_two_sub_one_eq_mod]

/-! ## List-entry lemmas -/

theorem getD_set_self {t : List Nat} {i : Nat} (v : Nat) (h : i < t.length) :
    (t.set i v).getD i 0 = v := by
  induction t generalizing i with
  | nil => simp at h
  | cons x xs ih =>
    cases i with
    | zero => simp [List.set]
    | succ j =>
      simp only [List.set, List.getD_cons_succ]
      exact ih (by simpa using h)

theorem getD_set_ne {t : List Nat} {i j : Nat} (v : Nat) (h : j ≠ i) :
    (t.set i v).getD j 0 = t.getD j 0 := by
  induction t generalizing i j with
  | nil => simp [List.set]
  | cons x xs ih =>
    cases i with
    | zero =>
      cases j with
      | zero => exact absurd rfl h
      | succ j' => simp [List.set]
    | succ i' =>
      cases j with
      | zero => simp [List.set]
      | succ j' =>
        simp only [List.set, List.getD_cons_succ]
        exact ih (fun hc => h (by rw [hc]))

theorem getD_replicate_zero (n i : Nat) : (List.replicate n 0).getD i 0 = 0 := by
  induction n generalizing i with
  | zero => simp
  | succ m ih =>
    cases i with
    | zero => simp [List.replicate]
    | succ j => simpa [List.replicate] using ih j

theorem zeroTable_getD (i : Nat) : zeroTable.getD i 0 = 0 :=
  getD_replicate_zero _ _

theorem zeroTable_length : zeroTable.length = ENTRIES_PER_TABLE :=
  List.length_replicate ..

/-! ## Heap lemmas -/

theorem heapGet_cons_self (a : Nat) (t : Table) (h : Heap) :
    heapGet ((a, t) :: h) a = t := by simp [heapGet]

theorem heapGet_cons_ne {a b : Nat} (t : Table) (h : Heap) (hne : b ≠ a) :
    heapGet ((a, t) :: h) b = heapGet h b := by simp [heapGet, hne]

theorem heapGet_not_mem {h : Heap} {a : Nat} (hmem : a ∉ heapKeys h) :
    heapGet h a = zeroTable := by
  induction h with
  | nil => rfl
  | cons p rest ih =>
    obtain ⟨b, t⟩ := p
    simp only [heapKeys, List.map_cons, List.mem_cons] at hmem
    push_neg at hmem
    simp only [heapGet, if_neg hmem.1]
    exact ih (by simpa [heapKeys] using hmem.2)

theorem heapGet_pair_mem {h : Heap} {a : Nat} (hmem : a ∈ heapKeys h) :
    (a, heapGet h a) ∈ h := by
  induction h with
  | nil => simp [heapKeys] at hmem
  | cons p rest ih =>
    obtain ⟨b, t⟩ := p
    by_cases hab : a = b
    · subst hab
      simp [heapGet]
    · simp only [heapKeys, List.map_cons, List.mem_cons] at hmem
      rcases hmem with h1 | h2
      · exact absurd h1 hab
      · simp only [heapGet, if_neg hab]
        exact List.mem_cons_of_mem _ (ih (by simpa [heapKeys] using h2))

theorem heapKeys_setEntry (h : Heap) (a i v : Nat) :
    heapKeys (heapSetEntry h a i v) = heapKeys h := by
  induction h with
  | nil => rfl
  | cons p rest ih =>
    obtain ⟨b, t⟩ := p
    by_cases hab : a = b <;> simp [heapSetEntry, hab, heapKeys] <;>
      simpa [heapKeys] using ih

theorem heapGet_setEntry_self {h : Heap} {a : Nat} (i v : Nat) (hmem : a ∈ heapKeys h) :
    heapGet (heapSetEntry h a i v) a = (heapGet h a).set i v := by
  induction h with
  | nil => simp [heapKeys] at hmem
  | cons p rest ih =>
    obtain ⟨b, t⟩ := p
    by_cases hab : a = b
    · subst hab
      simp [heapSetEntry, heapGet]
    · simp only [heapKeys, List.map_cons, List.mem_cons] at hmem
      rcases hmem with h1 | h2
      · exact absurd h1 hab
      · simp only [heapSetEntry, if_neg hab, heapGet, if_neg hab]
        exact ih (by simpa [heapKeys] using h2)

theorem heapGet_setEntry_ne {h : Heap} {a b : Nat} (i v : Nat) (hne : b ≠ a) :
    heapGet (heapSetEntry h a i v) b = heapGet h b := by
  induction h with
  | nil => rfl
  | cons p rest ih =>
    obtain ⟨c, t⟩ := p
    by_cases hac : a = c
    · subst hac
      simp [heapSetEntry, heapGet, if_neg hne]
    · by_cases hbc : b = c
      · subst hbc
        simp [heapSetEntry, if_neg hac, heapGet]
      · simp only [heapSetEntry, if_neg hac, heapGet, if_neg hbc]
        exact ih

theorem heapSetEntry_not_mem {h : Heap} {a : Nat} (i v : Nat) (hmem : a ∉ heapKeys h) :
    heapSetEntry h a i v = h := by
  induction h with
  | nil => rfl
  | cons p rest ih =>
    obtain ⟨b, t⟩ := p
    simp only [heapKeys, List.map_cons, List.mem_cons] at hmem
    push_neg at hmem
    simp only [heapSetEntry, if_neg hmem.1]
    rw [ih (by simpa [heapKeys] using hmem.2)]

theorem mem_heapSetEntry {h : Heap} {a i v : Nat} {p : Nat × Table}
    (hp : p ∈ heapSetEntry h a i v) :
    p ∈ h ∨ ∃ t, (a, t) ∈ h ∧ p = (a, t.set i v) := by
  induction h with
  | nil => simp [heapSetEntry] at hp
  | cons q rest ih =>
    obtain ⟨b, t⟩ := q
    by_cases hab : a = b
    · subst hab
      simp only [heapSetEntry, if_pos rfl] at hp
      rcases List.mem_cons.mp hp with h1 | h2
      · exact Or.inr ⟨t, List.mem_cons_self _ _, h1⟩
      · exact Or.inl (List.mem_cons_of_mem _ h2)
    · simp only [heapSetEntry, if_neg hab] at hp
      rcases List.mem_cons.mp hp with h1 | h2
      · exact Or.inl (by simp [h1])
      · rcases ih h2 with h3 | ⟨u, hu, hpu⟩
        · exact Or.inl (List.mem_cons_of_mem _ h3)
        · exact Or.inr ⟨u, List.mem_cons_of_mem _ hu, hpu⟩

theorem heapFree_sublist (h : Heap) (a : Nat) : (heapFree h a).Sublist h := by
  induction h with
  | nil => simp [heapFree]
  | cons p rest ih =>
    obtain ⟨b, t⟩ := p
    by_cases hab : a = b
    · simp only [heapFree, if_pos hab]
      exact List.sublist_cons_of_sublist _ (List.Sublist.refl _)
    · simp only [heapFree, if_neg hab]
      exact List.Sublist.cons₂ _ ih

theorem mem_of_mem_heapFree {h : Heap} {a : Nat} {p : Nat × Table}
    (hp : p ∈ heapFree h a) : p ∈ h :=
  (heapFree_sublist h a).mem hp

theorem heapKeys_heapFree_sublist (h : Heap) (a : Nat) :
    (heapKeys (heapFree h a)).Sublist (heapKeys h) :=
  (heapFree_sublist h a).map Prod.fst

theorem heapGet_heapFree_ne {h : Heap} {a b : Nat} (hne : b ≠ a) :
    heapGet (heapFree h a) b = heapGet h b := by
  induction h with
  | nil => rfl
  | cons p rest ih =>
    obtain ⟨c, t⟩ := p
    by_cases hac : a = c
    · subst hac
      simp [heapFree, heapGet, if_neg hne]
    · by_cases hbc : b = c
      · subst hbc
        simp [heapFree, if_neg hac, heapGet]
      · simp only [heapFree, if_neg hac, heapGet, if_neg hbc]
        exact ih

theorem mem_heapKeys_heapFree {h : Heap} {a b : Nat} (hne : b ≠ a)
    (hmem : b ∈ heapKeys h) : b ∈ heapKeys (heapFree h a) := by
  induction h with
  | nil => simp [heapKeys] at hmem
  | cons p rest ih =>
    obtain ⟨c, t⟩ := p
    by_cases hac : a = c
    · subst hac
      simp only [heapKeys, List.map_cons, List.mem_cons] at hmem
      rcases hmem with h1 | h2
      · exact absurd h1 hne
      · simpa [heapFree, heapKeys] using h2
    · simp only [heapKeys, List.map_cons, List.mem_cons] at hmem
      rcases hmem with h1 | h2
      · simp [heapFree, if_neg hac, heapKeys, h1]
      · simp only [heapFree, if_neg hac, heapKeys, List.map_cons, List.mem_cons]
        exact Or.inr (by simpa [heapKeys] using ih (by simpa [heapKeys] using h2))

theorem not_mem_heapKeys_heapFree {h : Heap} {a : Nat}
    (hnd : (heapKeys h).Nodup) : a ∉ heapKeys (heapFree h a) := by
  induction h with
  | nil => simp [heapFree, heapKeys]
  | cons p rest ih =>
    obtain ⟨b, t⟩ := p
    simp only [heapKeys, List.map_cons, List.nodup_cons] at hnd
    by_cases hab : a = b
    · subst hab
      simpa [heapFree, heapKeys] using hnd.1
    · simp only [heapFree, if_neg hab, heapKeys, List.map_cons, List.mem_cons]
      push_neg
      exact ⟨hab, by simpa [heapKeys] using ih hnd.2⟩

theorem nodup_heapKeys_heapFree {h : Heap} {a : Nat}
    (hnd : (heapKeys h).Nodup) : (heapKeys (heapFree h a)).Nodup :=
  (heapKeys_heapFree_sublist h a).nodup hnd

/-! ## Derived read lemmas -/

theorem readEntry_cons_self (a : Nat) (t : Table) (h : Heap) (j : Nat) :
    readEntry ((a, t) :: h) a j = t.getD j 0 := by
  simp [readEntry, heapGet_cons_self]

theorem readEntry_cons_ne {a b : Nat} (t : Table) (h : Heap) (j : Nat) (hne : b ≠ a) :
    readEntry ((a, t) :: h) b j = readEntry h b j := by
  simp [readEntry, heapGet_cons_ne t h hne]

theorem readEntry_setEntry_ne {h : Heap} {a b : Nat} (i j v : Nat) (hne : b ≠ a) :
    readEntry (heapSetEntry h a i v) b j = readEntry h b j := by
  simp [readEntry, heapGet_setEntry_ne i v hne]

theorem readEntry_setEntry_ne_idx {h : Heap} {a : Nat} (i j v : Nat) (hne : j ≠ i) :
    readEntry (heapSetEntry h a i v) a j = readEntry h a j := by
  by_cases hmem : a ∈ heapKeys h
  · unfold readEntry
    rw [heapGet_setEntry_self i v hmem]
    exact getD_set_ne v hne
  · rw [heapSetEntry_not_mem i v hmem]

theorem readEntry_setEntry_self {h : Heap} {a : Nat} (i v : Nat) (hmem : a ∈ heapKeys h)
    (hlen : i < (heapGet h a).length) :
    readEntry (heapSetEntry h a i v) a i = v := by
  unfold readEntry
  rw [heapGet_setEntry_self i v hmem]
  exact getD_set_self v hlen

theorem readEntry_heapFree_ne {h : Heap} {b c : Nat} (j : Nat) (hne : b ≠ c) :
    readEntry (heapFree h c) b j = readEntry h b j := by
  simp [readEntry, heapGet_heapFree_ne hne]

theorem readEntry_not_mem {h : Heap} {a : Nat} (j : Nat) (hmem : a ∉ heapKeys h) :
    readEntry h a j = 0 := by
  unfold readEntry
  rw [heapGet_not_mem hmem]
  exact zeroTable_getD j

theorem getD_set_cases (t : List Nat) (i v : Nat) :
    (t.set i v).getD i 0 = v ∨ (t.set i v).getD i 0 = t.getD i 0 := by
  by_cases hlen : i < t.length
  · exact Or.inl (getD_set_self v hlen)
  · rw [List.set_eq_of_length_le (Nat.le_of_not_lt hlen)]
    exact Or.inr rfl

/-- A read after a store returns either the stored value or the original
value at that position. -/
theorem readEntry_setEntry_cases (h : Heap) (a i v b j : Nat) :
    readEntry (heapSetEntry h a i v) b j = readEntry h b j ∨
    readEntry (heapSetEntry h a i v) b j = v := by
  by_cases hba : b = a
  · subst hba
    by_cases hmem : b ∈ heapKeys h
    · by_cases hji : j = i
      · subst hji
        unfold readEntry
        rw [heapGet_setEntry_self j v hmem]
        rcases getD_set_cases (heapGet h b) j v with h1 | h2
        · exact Or.inr h1
        · exact Or.inl h2
      · exact Or.inl (readEntry_setEntry_ne_idx i j v hji)
    · rw [heapSetEntry_not_mem i v hmem]
      exact Or.inl rfl
  · exact Or.inl (readEntry_setEntry_ne i j v hba)

/-! ## The structural invariant of reachable states -/

/-- Well-formedness of a state: block addresses are distinct, page-aligned,
nonzero and below the allocation frontier; every block holds exactly
`ENTRIES_PER_TABLE` entries; `ptbr` is unset or a live block; every valid
PTE's address bits name a live block strictly above its own table (so
walks cannot cycle) and distinct from the root; and no two valid PTEs
name the same block. -/
structure Inv (s : State) : Prop where
  nodup : (heapKeys s.heap).Nodup
  aligned : ∀ a ∈ heapKeys s.heap, a % PAGE_SIZE = 0
  pos : ∀ a ∈ heapKeys s.heap, 0 < a
  ltNext : ∀ a ∈ heapKeys s.heap, a < s.next * PAGE_SIZE
  nextPos : 1 ≤ s.next
  ptbrMem : s.ptbr = 0 ∨ s.ptbr ∈ heapKeys s.heap
  tlen : ∀ p ∈ s.heap, (Prod.snd p).length = ENTRIES_PER_TABLE
  childMem : ∀ a ∈ heapKeys s.heap, ∀ i < ENTRIES_PER_TABLE,
    isValidPte (readEntry s.heap a i) = true →
      ENTRY_TO_PHYS_ADDR (readEntry s.heap a i) ∈ heapKeys s.heap ∧
      a < ENTRY_TO_PHYS_ADDR (readEntry s.heap a i) ∧
      ENTRY_TO_PHYS_ADDR (readEntry s.heap a i) ≠ s.ptbr
  inj : ∀ a ∈ heapKeys s.heap, ∀ b ∈ heapKeys s.heap,
    ∀ i < ENTRIES_PER_TABLE, ∀ j < ENTRIES_PER_TABLE,
      isValidPte (readEntry s.heap a i) = true →
      isValidPte (readEntry s.heap b j) = true →
      ENTRY_TO_PHYS_ADDR (readEntry s.heap a i) =
        ENTRY_TO_PHYS_ADDR (readEntry s.heap b j) →
      a = b ∧ i = j

theorem inv_initState : Inv initState := by
  constructor <;> simp [initState, heapKeys]

theorem Inv.rowLen {s : State} (hInv : Inv s) {a : Nat} (hmem : a ∈ heapKeys s.heap) :
    (heapGet s.heap a).length = ENTRIES_PER_TABLE :=
  hInv.tlen (a, heapGet s.heap a) (heapGet_pair_mem hmem)

theorem Inv.fresh_not_mem {s : State} (hInv : Inv s) :
    s.next * PAGE_SIZE ∉ heapKeys s.heap := fun hmem =>
  absurd (hInv.ltNext _ hmem) (Nat.lt_irrefl _)

/-! ## Invariant preservation: allocation primitives -/

theorem phys_of_aligned {a : Nat} (ha : a % PAGE_SIZE = 0) :
    ENTRY_TO_PHYS_ADDR a = a :=
  Nat.div_mul_cancel (Nat.dvd_of_mod_eq_zero ha)

theorem fresh_aligned (n : Nat) : n * PAGE_SIZE % PAGE_SIZE = 0 :=
  Nat.mul_mod_left _ _

theorem heapKeys_cons (a : Nat) (t : Table) (h : Heap) :
    heapKeys ((a, t) :: h) = a :: heapKeys h := rfl

theorem Inv.nextPosMul {s : State} (hInv : Inv s) : 0 < s.next * PAGE_SIZE :=
  Nat.mul_pos (Nat.lt_of_lt_of_le Nat.zero_lt_one hInv.nextPos) PAGE_SIZE_pos

/-- Adding a fresh zero-filled block (and possibly pointing `ptbr` at it)
preserves the invariant. -/
theorem inv_push_gen {s : State} (hInv : Inv s) {p : Nat}
    (hp : p = s.ptbr ∨ p = s.next * PAGE_SIZE) :
    Inv { heap := (s.next * PAGE_SIZE, zeroTable) :: s.heap,
          ptbr := p, next := s.next + 1 } := by
  set f := s.next * PAGE_SIZE with hfdef
  have hf : f ∉ heapKeys s.heap := hInv.fresh_not_mem
  have hlt : ∀ a ∈ heapKeys s.heap, a < f := hInv.ltNext
  have hreadf : ∀ i, readEntry ((f, zeroTable) :: s.heap) f i = 0 := by
    intro i
    rw [readEntry_cons_self]
    exact zeroTable_getD i
  have hreadold : ∀ a ∈ heapKeys s.heap, ∀ i,
      readEntry ((f, zeroTable) :: s.heap) a i = readEntry s.heap a i := by
    intro a ha i
    exact readEntry_cons_ne _ _ _ (Nat.ne_of_lt (hlt a ha))
  constructor
  case nodup =>
    rw [heapKeys_cons]
    exact List.nodup_cons.mpr ⟨hf, hInv.nodup⟩
  case aligned =>
    intro a ha
    rcases List.mem_cons.mp ha with rfl | ha'
    · exact fresh_aligned s.next
    · exact hInv.aligned a ha'
  case pos =>
    intro a ha
    rcases List.mem_cons.mp ha with rfl | ha'
    · exact hInv.nextPosMul
    · exact hInv.pos a ha'
  case ltNext =>
    intro a ha
    have hstep : f < (s.next + 1) * PAGE_SIZE := by
      rw [hfdef]
      exact (Nat.mul_lt_mul_right PAGE_SIZE_pos).mpr (Nat.lt_succ_self _)
    rcases List.mem_cons.mp ha with rfl | ha'
    · exact hstep
    · exact Nat.lt_trans (hlt a ha') hstep
  case nextPos => exact Nat.le_succ_of_le hInv.nextPos
  case ptbrMem =>
    rcases hp with rfl | rfl
    · rcases hInv.ptbrMem with h0 | hmem
      · exact Or.inl h0
      · exact Or.inr (List.mem_cons_of_mem _ hmem)
    · exact Or.inr (List.mem_cons_self _ _)
  case tlen =>
    intro q hq
    rcases List.mem_cons.mp hq with rfl | hq'
    · exact zeroTable_length
    · exact hInv.tlen q hq'
  case childMem =>
    intro a ha i hi hv
    rcases List.mem_cons.mp ha with rfl | ha'
    · rw [hreadf i, isValidPte_zero] at hv
      exact absurd hv (by simp)
    · rw [hreadold a ha' i] at hv ⊢
      obtain ⟨hm, hgt, hne⟩ := hInv.childMem a ha' i hi hv
      refine ⟨List.mem_cons_of_mem _ hm, hgt, ?_⟩
      rcases hp with rfl | rfl
      · exact hne
      · exact Nat.ne_of_lt (hlt _ hm)
  case inj =>
    intro a ha b hb i hi j hj hva hvb heq
    rcases List.mem_cons.mp ha with rfl | ha'
    · rw [hreadf i, isValidPte_zero] at hva
      exact absurd hva (by simp)
    rcases List.mem_cons.mp hb with rfl | hb'
    · rw [hreadf j, isValidPte_zero] at hvb
      exact absurd hvb (by simp)
    rw [hreadold a ha' i] at hva heq
    rw [hreadold b hb' j] at hvb heq
    exact hInv.inj a ha' b hb' i hi j hj hva hvb heq

/-- The read-back behaviour of installing a PTE for a fresh block:
only the installed slot changes. -/
theorem install_read {s : State} (hInv : Inv s) {cur idx : Nat}
    (hcur : cur ∈ heapKeys s.heap) (hidx : idx < ENTRIES_PER_TABLE)
    (a i : Nat) (ha : a ∈ heapKeys s.heap) :
    readEntry (heapSetEntry ((s.next * PAGE_SIZE, zeroTable) :: s.heap) cur idx
        (ENTRY_TO_PHYS_ADDR (s.next * PAGE_SIZE) ||| VALID_FLAG)) a i =
      if a = cur ∧ i = idx then ENTRY_TO_PHYS_ADDR (s.next * PAGE_SIZE) ||| VALID_FLAG
      else readEntry s.heap a i := by
  set f := s.next * PAGE_SIZE with hfdef
  set pte := ENTRY_TO_PHYS_ADDR f ||| VALID_FLAG with hptedef
  have hlt : ∀ b ∈ heapKeys s.heap, b < f := hInv.ltNext
  have hanef : a ≠ f := Nat.ne_of_lt (hlt a ha)
  have hcurnef : cur ≠ f := Nat.ne_of_lt (hlt cur hcur)
  by_cases hac : a = cur
  · subst hac
    have hmem : a ∈ heapKeys ((f, zeroTable) :: s.heap) :=
      List.mem_cons_of_mem _ ha
    by_cases hidi : i = idx
    · subst hidi
      rw [if_pos ⟨rfl, rfl⟩]
      have hlen : i < (heapGet ((f, zeroTable) :: s.heap) a).length := by
        rw [heapGet_cons_ne _ _ hanef, hInv.rowLen ha]
        exact hidx
      exact readEntry_setEntry_self i pte hmem hlen
    · rw [if_neg (fun hconj => hidi hconj.2)]
      rw [readEntry_setEntry_ne_idx idx i pte hidi]
      exact readEntry_cons_ne _ _ _ hanef
  · rw [if_neg (fun hconj => hac hconj.1)]
    rw [readEntry_setEntry_ne idx i pte hac]
    exact readEntry_cons_ne _ _ _ hanef

/-- Installing a freshly allocated block into an existing table's entry
preserves the invariant. -/
theorem inv_install {s : State} (hInv : Inv s) {cur idx : Nat}
    (hcur : cur ∈ heapKeys s.heap) (hidx : idx < ENTRIES_PER_TABLE) :
    Inv { heap := heapSetEntry ((s.next * PAGE_SIZE, zeroTable) :: s.heap) cur idx
            (ENTRY_TO_PHYS_ADDR (s.next * PAGE_SIZE) ||| VALID_FLAG),
          ptbr := s.ptbr, next := s.next + 1 } := by
  set f := s.next * PAGE_SIZE with hfdef
  set pte := ENTRY_TO_PHYS_ADDR f ||| VALID_FLAG with hptedef
  have hfal : f % PAGE_SIZE = 0 := fresh_aligned s.next
  have hphys : ENTRY_TO_PHYS_ADDR pte = f := by
    rw [hptedef, phys_of_aligned hfal]
    exact entry_to_phys_or_one hfal
  have hpush : Inv { heap := (f, zeroTable) :: s.heap, ptbr := s.ptbr, next := s.next + 1 } := inv_push_gen hInv (Or.inl rfl)
  have hlt : ∀ b ∈ heapKeys s.heap, b < f := hInv.ltNext
  have hkeys : heapKeys (heapSetEntry ((f, zeroTable) :: s.heap) cur idx pte)
      = f :: heapKeys s.heap := by
    rw [heapKeys_setEntry, heapKeys_cons]
  have hreadf : ∀ i, readEntry (heapSetEntry ((f, zeroTable) :: s.heap) cur idx pte) f i
      = 0 := by
    intro i
    rw [readEntry_setEntry_ne idx i pte (Nat.ne_of_lt (hlt cur hcur)).symm,
      readEntry_cons_self]
    exact zeroTable_getD i
  have hread := install_read hInv hcur hidx
  have hnotptbr : f ≠ s.ptbr := by
    rcases hInv.ptbrMem with h0 | hmem
    · rw [h0]
      exact Nat.ne_of_gt hInv.nextPosMul
    · exact (Nat.ne_of_lt (hlt _ hmem)).symm
  constructor
  case nodup => rw [hkeys]; exact List.nodup_cons.mpr ⟨hInv.fresh_not_mem, hInv.nodup⟩
  case aligned =>
    intro a ha
    rw [hkeys] at ha
    rcases List.mem_cons.mp ha with rfl | ha'
    · exact hfal
    · exact hInv.aligned a ha'
  case pos =>
    intro a ha
    rw [hkeys] at ha
    rcases List.mem_cons.mp ha with rfl | ha'
    · exact hInv.nextPosMul
    · exact hInv.pos a ha'
  case ltNext =>
    intro a ha
    rw [hkeys] at ha
    have hstep : f < (s.next + 1) * PAGE_SIZE :=
      (Nat.mul_lt_mul_right PAGE_SIZE_pos).mpr (Nat.lt_succ_self _)
    rcases List.mem_cons.mp ha with rfl | ha'
    · exact hstep
    · exact Nat.lt_trans (hlt a ha') hstep
  case nextPos => exact Nat.le_succ_of_le hInv.nextPos
  case ptbrMem =>
    rcases hInv.ptbrMem with h0 | hmem
    · exact Or.inl h0
    · rw [hkeys]
      exact Or.inr (List.mem_cons_of_mem _ hmem)
  case tlen =>
    intro q hq
    rcases mem_heapSetEntry hq with hq' | ⟨t, ht, rfl⟩
    · rcases List.mem_cons.mp hq' with rfl | hq''
      · exact zeroTable_length
      · exact hInv.tlen q hq''
    · rw [List.length_set]
      rcases List.mem_cons.mp ht with heqt | ht'
      · rw [show t = zeroTable from congrArg Prod.snd heqt]
        exact zeroTable_length
      · exact hInv.tlen (cur, t) ht'
  case childMem =>
    intro a ha i hi hv
    rw [hkeys] at ha
    rcases List.mem_cons.mp ha with rfl | ha'
    · rw [hreadf i, isValidPte_zero] at hv
      exact absurd hv (by simp)
    · rw [hread a i ha'] at hv ⊢
      by_cases hcase : a = cur ∧ i = idx
      · rw [if_pos hcase] at hv ⊢
        rw [hphys, hkeys]
        exact ⟨List.mem_cons_self _ _, hlt a ha', hnotptbr⟩
      · rw [if_neg hcase] at hv ⊢
        obtain ⟨hm, hgt, hne⟩ := hInv.childMem a ha' i hi hv
        rw [hkeys]
        exact ⟨List.mem_cons_of_mem _ hm, hgt, hne⟩
  case inj =>
    intro a ha b hb i hi j hj hva hvb heq
    rw [hkeys] at ha hb
    rcases List.mem_cons.mp ha with rfl | ha'
    · rw [hreadf i, isValidPte_zero] at hva
      exact absurd hva (by simp)
    rcases List.mem_cons.mp hb with rfl | hb'
    · rw [hreadf j, isValidPte_zero] at hvb
      exact absurd hvb (by simp)
    rw [hread a i ha'] at hva heq
    rw [hread b j hb'] at hvb heq
    by_cases hA : a = cur ∧ i = idx
    · by_cases hB : b = cur ∧ j = idx
      · exact ⟨hA.1.trans hB.1.symm, hA.2.trans hB.2.symm⟩
      · rw [if_pos hA] at heq
        rw [if_neg hB] at heq hvb
        rw [hphys] at heq
        obtain ⟨hm, _, _⟩ := hInv.childMem b hb' j hj hvb
        rw [← heq] at hm
        exact absurd (hlt f hm) (Nat.lt_irrefl f)
    · by_cases hB : b = cur ∧ j = idx
      · rw [if_neg hA] at heq hva
        rw [if_pos hB] at heq
        rw [hphys] at heq
        obtain ⟨hm, _, _⟩ := hInv.childMem a ha' i hi hva
        rw [heq] at hm
        exact absurd (hlt f hm) (Nat.lt_irrefl f)
      · rw [if_neg hA] at heq hva
        rw [if_neg hB] at heq hvb
        exact hInv.inj a ha' b hb' i hi j hj hva hvb heq

/-- Clearing (zeroing) any entry preserves the invariant. -/
theorem inv_clear {s : State} (hInv : Inv s) (a i : Nat) :
    Inv { s with heap := heapSetEntry s.heap a i 0 } := by
  have hkeys : heapKeys (heapSetEntry s.heap a i 0) = heapKeys s.heap :=
    heapKeys_setEntry s.heap a i 0
  have hread : ∀ b j, isValidPte (readEntry (heapSetEntry s.heap a i 0) b j) = true →
      readEntry (heapSetEntry s.heap a i 0) b j = readEntry s.heap b j := by
    intro b j hv
    rcases readEntry_setEntry_cases s.heap a i 0 b j with h1 | h1
    · exact h1
    · rw [h1, isValidPte_zero] at hv
      exact absurd hv (by simp)
  constructor
  case nodup => rw [hkeys]; exact hInv.nodup
  case aligned => rw [hkeys]; exact hInv.aligned
  case pos => rw [hkeys]; exact hInv.pos
  case ltNext => rw [hkeys]; exact hInv.ltNext
  case nextPos => exact hInv.nextPos
  case ptbrMem => rw [hkeys]; exact hInv.ptbrMem
  case tlen =>
    intro q hq
    rcases mem_heapSetEntry hq with hq' | ⟨t, ht, rfl⟩
    · exact hInv.tlen q hq'
    · rw [List.length_set]
      exact hInv.tlen (a, t) ht
  case childMem =>
    intro b hb j hj hv
    rw [hkeys] at hb
    have heqr := hread b j hv
    rw [heqr] at hv ⊢
    obtain ⟨hm, hgt, hne⟩ := hInv.childMem b hb j hj hv
    rw [hkeys]
    exact ⟨hm, hgt, hne⟩
  case inj =>
    intro b hb c hc j hj k hk hvb hvc heq
    rw [hkeys] at hb hc
    have heqb := hread b j hvb
    have heqc := hread c k hvc
    rw [heqb] at hvb heq
    rw [heqc] at hvc heq
    exact hInv.inj b hb c hc j hj k hk hvb hvc heq

/-- Freeing a block that is the target of exactly one valid PTE while
clearing that PTE preserves the invariant.  This is the shape of one step
of `page_deallocate`'s upward cleanup. -/
theorem inv_free_clear {s : State} (hInv : Inv s) {parent pidx c : Nat}
    (hparent : parent ∈ heapKeys s.heap) (hpidx : pidx < ENTRIES_PER_TABLE)
    (hvalid : isValidPte (readEntry s.heap parent pidx) = true)
    (hc : ENTRY_TO_PHYS_ADDR (readEntry s.heap parent pidx) = c) :
    Inv { s with heap := heapSetEntry (heapFree s.heap c) parent pidx 0 } := by
  obtain ⟨hcmem, hclt, hcptbr⟩ := hInv.childMem parent hparent pidx hpidx hvalid
  rw [hc] at hcmem hclt hcptbr
  have hpc : parent ≠ c := Nat.ne_of_lt hclt
  have hpmem : parent ∈ heapKeys (heapFree s.heap c) :=
    mem_heapKeys_heapFree hpc hparent
  have hcnot : c ∉ heapKeys (heapFree s.heap c) :=
    not_mem_heapKeys_heapFree hInv.nodup
  have hkeys : heapKeys (heapSetEntry (heapFree s.heap c) parent pidx 0)
      = heapKeys (heapFree s.heap c) := heapKeys_setEntry ..
  have hsub : ∀ b ∈ heapKeys (heapFree s.heap c), b ∈ heapKeys s.heap := by
    intro b hb
    exact (heapKeys_heapFree_sublist s.heap c).mem hb
  -- A valid read in the result heap is an untouched read of the original
  -- heap at a position other than the cleared one.
  have hread : ∀ b ∈ heapKeys (heapFree s.heap c), ∀ j,
      isValidPte (readEntry (heapSetEntry (heapFree s.heap c) parent pidx 0) b j) = true →
      readEntry (heapSetEntry (heapFree s.heap c) parent pidx 0) b j = readEntry s.heap b j ∧
      ¬(b = parent ∧ j = pidx) := by
    intro b hb j hv
    have hbc : b ≠ c := fun hbc => hcnot (hbc ▸ hb)
    have hnp : ¬(b = parent ∧ j = pidx) := by
      rintro ⟨rfl, rfl⟩
      have hlen : j < (heapGet (heapFree s.heap c) b).length := by
        have := hInv.tlen (b, heapGet (heapFree s.heap c) b)
            (mem_of_mem_heapFree (heapGet_pair_mem hb))
        rw [this]
        exact hpidx
      rw [readEntry_setEntry_self j 0 hb hlen, isValidPte_zero] at hv
      exact absurd hv (by simp)
    refine ⟨?_, hnp⟩
    by_cases hbp : b = parent
    · subst hbp
      have hji : j ≠ pidx := fun hji => hnp ⟨rfl, hji⟩
      rw [readEntry_setEntry_ne_idx pidx j 0 hji]
      exact readEntry_heapFree_ne j hbc
    · rw [readEntry_setEntry_ne pidx j 0 hbp]
      exact readEntry_heapFree_ne j hbc
  constructor
  case nodup => rw [hkeys]; exact nodup_heapKeys_heapFree hInv.nodup
  case aligned =>
    intro b hb
    rw [hkeys] at hb
    exact hInv.aligned b (hsub b hb)
  case pos =>
    intro b hb
    rw [hkeys] at hb
    exact hInv.pos b (hsub b hb)
  case ltNext =>
    intro b hb
    rw [hkeys] at hb
    exact hInv.ltNext b (hsub b hb)
  case nextPos => exact hInv.nextPos
  case ptbrMem =>
    rcases hInv.ptbrMem with h0 | hmem
    · exact Or.inl h0
    · rw [hkeys]
      exact Or.inr (mem_heapKeys_heapFree (fun hpe => hcptbr hpe.symm) hmem)
  case tlen =>
    intro q hq
    rcases mem_heapSetEntry hq with hq' | ⟨t, ht, rfl⟩
    · exact hInv.tlen q (mem_of_mem_heapFree hq')
    · rw [List.length_set]
      exact hInv.tlen (parent, t) (mem_of_mem_heapFree ht)
  case childMem =>
    intro b hb j hj hv
    rw [hkeys] at hb
    obtain ⟨heqr, hnp⟩ := hread b hb j hv
    rw [heqr] at hv ⊢
    obtain ⟨hm, hgt, hne⟩ := hInv.childMem b (hsub b hb) j hj hv
    have hdc : ENTRY_TO_PHYS_ADDR (readEntry s.heap b j) ≠ c := by
      intro hdc
      have := hInv.inj b (hsub b hb) parent hparent j hj pidx hpidx hv hvalid
        (by rw [hdc, hc])
      exact hnp ⟨this.1, this.2⟩
    rw [hkeys]
    exact ⟨mem_heapKeys_heapFree hdc hm, hgt, hne⟩
  case inj =>
    intro b hb d hd j hj k hk hvb hvd heq
    rw [hkeys] at hb hd
    obtain ⟨heqb, _⟩ := hread b hb j hvb
    obtain ⟨heqd, _⟩ := hread d hd k hvd
    rw [heqb] at hvb heq
    rw [heqd] at hvd heq
    exact hInv.inj b (hsub b hb) d (hsub d hd) j hj k hk hvb hvd heq

/-! ## Characterizing `page_allocate` under an always-succeeding allocator -/

/-- The oracle modelling a backing allocator that never fails. -/
def alwaysSucceed : Nat → Bool := fun _ => true

/-- Proof-layer description of one level of `page_allocate`'s walk under a
never-failing allocator: make the entry `(cur, idx)` valid, installing a
fresh block when it is not. -/
def ensureState (s : State) (cur idx : Nat) : State :=
  if isValidPte (readEntry s.heap cur idx) then s
  else
    { heap := heapSetEntry ((s.next * PAGE_SIZE, zeroTable) :: s.heap) cur idx
        (ENTRY_TO_PHYS_ADDR (s.next * PAGE_SIZE) ||| VALID_FLAG),
      ptbr := s.ptbr, next := s.next + 1 }

/-- The table the walk descends into after ensuring entry `(cur, idx)`. -/
def ensureChild (s : State) (cur idx : Nat) : Nat :=
  ENTRY_TO_PHYS_ADDR (readEntry (ensureState s cur idx).heap cur idx)

/-- The state after creating a fresh root (`ptbr == 0` branch of
`page_allocate`, successful allocation). -/
def rootCreate (s : State) : State :=
  { heap := (s.next * PAGE_SIZE, zeroTable) :: s.heap,
    ptbr := s.next * PAGE_SIZE, next := s.next + 1 }

theorem alloc_walk_succ_T (va l : Nat) (s : State) (cur : Nat) :
    alloc_walk alwaysSucceed va (l + 1) s cur =
      alloc_walk alwaysSucceed va l
        (ensureState s cur (extract_level_index va (l + 1)))
        (ensureChild s cur (extract_level_index va (l + 1))) := by
  by_cases h : isValidPte (readEntry s.heap cur (extract_level_index va (l + 1))) <;>
    simp [alloc_walk, allocate_aligned_page, alwaysSucceed, ensureState, ensureChild, h]

theorem alloc_walk_zero_T (va : Nat) (s : State) (cur : Nat) :
    alloc_walk alwaysSucceed va 0 s cur =
      ensureState s cur (extract_level_index va 0) := by
  by_cases h : isValidPte (readEntry s.heap cur (extract_level_index va 0)) <;>
    simp [alloc_walk, allocate_aligned_page, alwaysSucceed, ensureState, h]

theorem page_allocate_T_root (s : State) (va : Nat) (h0 : s.ptbr = 0) :
    page_allocate alwaysSucceed s va =
      alloc_walk alwaysSucceed va 2 (rootCreate s) (s.next * PAGE_SIZE) := by
  simp [page_allocate, is_address_valid_always, h0, allocate_aligned_page,
    alwaysSucceed, rootCreate, LEVELS]

theorem page_allocate_T_go (s : State) (va : Nat) (h0 : s.ptbr ≠ 0) :
    page_allocate alwaysSucceed s va = alloc_walk alwaysSucceed va 2 s s.ptbr := by
  simp [page_allocate, is_address_valid_always, h0, LEVELS]

/-- What one `ensureState` step guarantees, relative to the walk's current
table `cur` and the child `c` it descends into. -/
structure EnsureSpec (s s' : State) (cur idx c : Nat) : Prop where
  inv : Inv s'
  ptbrEq : s'.ptbr = s.ptbr
  nextLe : s.next ≤ s'.next
  nextBound : s'.next ≤ s.next + 1
  curMem : cur ∈ heapKeys s'.heap
  cMem : c ∈ heapKeys s'.heap
  curLt : cur < c
  validEntry : isValidPte (readEntry s'.heap cur idx) = true
  physEntry : ENTRY_TO_PHYS_ADDR (readEntry s'.heap cur idx) = c
  keysMono : ∀ b ∈ heapKeys s.heap, b ∈ heapKeys s'.heap
  frame : ∀ b, b ≠ cur → heapGet s'.heap b = heapGet s.heap b
  rowCur : heapGet s'.heap cur = heapGet s.heap cur ∨
    heapGet s'.heap cur = (heapGet s.heap cur).set idx (readEntry s'.heap cur idx)
  cCases : (c ∈ heapKeys s.heap ∧ heapGet s'.heap c = heapGet s.heap c ∧
      isValidPte (readEntry s.heap cur idx) = true ∧
      ENTRY_TO_PHYS_ADDR (readEntry s.heap cur idx) = c) ∨
    (c ∉ heapKeys s.heap ∧ heapGet s'.heap c = zeroTable)

theorem ensure_spec {s : State} (hInv : Inv s) {cur idx : Nat}
    (hcur : cur ∈ heapKeys s.heap) (hidx : idx < ENTRIES_PER_TABLE) :
    EnsureSpec s (ensureState s cur idx) cur idx (ensureChild s cur idx) := by
  by_cases hv : isValidPte (readEntry s.heap cur idx) = true
  · -- entry already valid: no state change
    have hs : ensureState s cur idx = s := by simp [ensureState, hv]
    have hc : ensureChild s cur idx = ENTRY_TO_PHYS_ADDR (readEntry s.heap cur idx) := by
      simp [ensureChild, hs]
    obtain ⟨hm, hgt, _⟩ := hInv.childMem cur hcur idx hidx hv
    rw [hs, hc]
    exact {
      inv := hInv
      ptbrEq := rfl
      nextLe := Nat.le_refl _
      nextBound := Nat.le_succ _
      curMem := hcur
      cMem := hm
      curLt := hgt
      validEntry := hv
      physEntry := rfl
      keysMono := fun b hb => hb
      frame := fun b _ => rfl
      rowCur := Or.inl rfl
      cCases := Or.inl ⟨hm, rfl, hv, rfl⟩ }
  · -- entry invalid: install a fresh block
    have hvf : isValidPte (readEntry s.heap cur idx) = false :=
      Bool.eq_false_iff.mpr hv
    have hsheap : (ensureState s cur idx).heap =
        heapSetEntry ((s.next * PAGE_SIZE, zeroTable) :: s.heap) cur idx
          (ENTRY_TO_PHYS_ADDR (s.next * PAGE_SIZE) ||| VALID_FLAG) := by
      simp [ensureState, hvf]
    have hsptbr : (ensureState s cur idx).ptbr = s.ptbr := by
      simp [ensureState, hvf]
    have hsnext : (ensureState s cur idx).next = s.next + 1 := by
      simp [ensureState, hvf]
    have hfal : s.next * PAGE_SIZE % PAGE_SIZE = 0 := fresh_aligned s.next
    have hphysf : ENTRY_TO_PHYS_ADDR
        (ENTRY_TO_PHYS_ADDR (s.next * PAGE_SIZE) ||| VALID_FLAG) = s.next * PAGE_SIZE := by
      rw [phys_of_aligned hfal]
      exact entry_to_phys_or_one hfal
    have hread := install_read hInv hcur hidx cur idx hcur
    rw [if_pos ⟨rfl, rfl⟩] at hread
    have hreadc : readEntry (ensureState s cur idx).heap cur idx =
        ENTRY_TO_PHYS_ADDR (s.next * PAGE_SIZE) ||| VALID_FLAG := by
      rw [hsheap]
      exact hread
    have hc : ensureChild s cur idx = s.next * PAGE_SIZE := by
      rw [ensureChild, hreadc, hphysf]
    have hkeys : heapKeys (ensureState s cur idx).heap
        = s.next * PAGE_SIZE :: heapKeys s.heap := by
      rw [hsheap, heapKeys_setEntry, heapKeys_cons]
    have hcurne : cur ≠ s.next * PAGE_SIZE := Nat.ne_of_lt (hInv.ltNext cur hcur)
    have hinv : Inv (ensureState s cur idx) := by
      have hs : ensureState s cur idx =
          { heap := heapSetEntry ((s.next * PAGE_SIZE, zeroTable) :: s.heap) cur idx
              (ENTRY_TO_PHYS_ADDR (s.next * PAGE_SIZE) ||| VALID_FLAG),
            ptbr := s.ptbr, next := s.next + 1 } := by
        simp [ensureState, hvf]
      rw [hs]
      exact inv_install hInv hcur hidx
    rw [hc]
    exact {
      inv := hinv
      ptbrEq := hsptbr
      nextLe := by rw [hsnext]; exact Nat.le_succ _
      nextBound := by rw [hsnext]
      curMem := by rw [hkeys]; exact List.mem_cons_of_mem _ hcur
      cMem := by rw [hkeys]; exact List.mem_cons_self _ _
      curLt := hInv.ltNext cur hcur
      validEntry := by rw [hreadc]; exact isValidPte_or_one _
      physEntry := by rw [hreadc]; exact hphysf
      keysMono := by
        intro b hb
        rw [hkeys]
        exact List.mem_cons_of_mem _ hb
      frame := by
        intro b hb
        rw [hsheap, heapGet_setEntry_ne _ _ hb]
        by_cases hbf : b = s.next * PAGE_SIZE
        · subst hbf
          rw [heapGet_cons_self, heapGet_not_mem hInv.fresh_not_mem]
        · exact heapGet_cons_ne _ _ hbf
      rowCur := by
        right
        rw [hreadc, hsheap,
          heapGet_setEntry_self _ _ (List.mem_cons_of_mem _ hcur),
          heapGet_cons_ne _ _ hcurne]
      cCases := by
        right
        refine ⟨hInv.fresh_not_mem, ?_⟩
        rw [hsheap, heapGet_setEntry_ne _ _ hcurne.symm, heapGet_cons_self] }

theorem readEntry_of_rowEq {h h' : Heap} {a : Nat}
    (he : heapGet h a = heapGet h' a) (i : Nat) :
    readEntry h a i = readEntry h' a i := by
  unfold readEntry
  rw [he]

theorem alloc_walk_two_T (va : Nat) (s : State) (cur : Nat) :
    alloc_walk alwaysSucceed va 2 s cur =
      alloc_walk alwaysSucceed va 1
        (ensureState s cur (extract_level_index va 2))
        (ensureChild s cur (extract_level_index va 2)) :=
  alloc_walk_succ_T va 1 s cur

theorem alloc_walk_one_T (va : Nat) (s : State) (cur : Nat) :
    alloc_walk alwaysSucceed va 1 s cur =
      alloc_walk alwaysSucceed va 0
        (ensureState s cur (extract_level_index va 1))
        (ensureChild s cur (extract_level_index va 1)) :=
  alloc_walk_succ_T va 0 s cur

theorem rootCreate_row {s : State} (hInv : Inv s) (b : Nat) :
    heapGet (rootCreate s).heap b = heapGet s.heap b := by
  show heapGet ((s.next * PAGE_SIZE, zeroTable) :: s.heap) b = heapGet s.heap b
  by_cases hb : b = s.next * PAGE_SIZE
  · subst hb
    rw [heapGet_cons_self, heapGet_not_mem hInv.fresh_not_mem]
  · exact heapGet_cons_ne _ _ hb

/-- Everything a successful `page_allocate` call guarantees: a fully
valid path `r → t1 → t0 → p` for `va` with strictly increasing block
addresses, plus framing: only the three path tables' single slots can
have changed, and a path link that is not brand-new already existed. -/
structure AllocSpec (s s' : State) (va r t1 t0 p : Nat) : Prop where
  inv : Inv s'
  ptbrEq : s'.ptbr = r
  ptbrKeep : s.ptbr ≠ 0 → r = s.ptbr
  rFresh : s.ptbr = 0 → r ∉ heapKeys s.heap
  nextLe : s.next ≤ s'.next
  nextBound : s'.next ≤ s.next + 4
  rMem : r ∈ heapKeys s'.heap
  t1Mem : t1 ∈ heapKeys s'.heap
  t0Mem : t0 ∈ heapKeys s'.heap
  pMem : p ∈ heapKeys s'.heap
  rLt : r < t1
  t1Lt : t1 < t0
  t0Lt : t0 < p
  e2Valid : isValidPte (readEntry s'.heap r (extract_level_index va 2)) = true
  e2Phys : ENTRY_TO_PHYS_ADDR (readEntry s'.heap r (extract_level_index va 2)) = t1
  e1Valid : isValidPte (readEntry s'.heap t1 (extract_level_index va 1)) = true
  e1Phys : ENTRY_TO_PHYS_ADDR (readEntry s'.heap t1 (extract_level_index va 1)) = t0
  e0Valid : isValidPte (readEntry s'.heap t0 (extract_level_index va 0)) = true
  e0Phys : ENTRY_TO_PHYS_ADDR (readEntry s'.heap t0 (extract_level_index va 0)) = p
  keysMono : ∀ b ∈ heapKeys s.heap, b ∈ heapKeys s'.heap
  frame : ∀ b, b ≠ r → b ≠ t1 → b ≠ t0 → heapGet s'.heap b = heapGet s.heap b
  rowR : heapGet s'.heap r = heapGet s.heap r ∨
    heapGet s'.heap r = (heapGet s.heap r).set (extract_level_index va 2)
      (readEntry s'.heap r (extract_level_index va 2))
  rowT1 : heapGet s'.heap t1 = heapGet s.heap t1 ∨
    heapGet s'.heap t1 = (heapGet s.heap t1).set (extract_level_index va 1)
      (readEntry s'.heap t1 (extract_level_index va 1))
  rowT0 : heapGet s'.heap t0 = heapGet s.heap t0 ∨
    heapGet s'.heap t0 = (heapGet s.heap t0).set (extract_level_index va 0)
      (readEntry s'.heap t0 (extract_level_index va 0))
  t1Old : t1 ∈ heapKeys s.heap →
    isValidPte (readEntry s.heap r (extract_level_index va 2)) = true ∧
    ENTRY_TO_PHYS_ADDR (readEntry s.heap r (extract_level_index va 2)) = t1
  t0Old : t0 ∈ heapKeys s.heap → t1 ∈ heapKeys s.heap ∧
    isValidPte (readEntry s.heap t1 (extract_level_index va 1)) = true ∧
    ENTRY_TO_PHYS_ADDR (readEntry s.heap t1 (extract_level_index va 1)) = t0

theorem alloc_walk2_spec {s1 : State} (hinv1 : Inv s1) (va : Nat)
    (hr : s1.ptbr ∈ heapKeys s1.heap) :
    ∃ t1 t0 p, AllocSpec s1 (alloc_walk alwaysSucceed va 2 s1 s1.ptbr) va
      s1.ptbr t1 t0 p ∧
      (alloc_walk alwaysSucceed va 2 s1 s1.ptbr).next ≤ s1.next + 3 := by
  have hi2 := extract_level_index_lt va 2
  have hi1 := extract_level_index_lt va 1
  have hi0 := extract_level_index_lt va 0
  have E2 := ensure_spec hinv1 hr hi2
  set s2 := ensureState s1 s1.ptbr (extract_level_index va 2) with hs2
  set t1 := ensureChild s1 s1.ptbr (extract_level_index va 2) with ht1
  have E1 := ensure_spec E2.inv E2.cMem hi1
  set s3 := ensureState s2 t1 (extract_level_index va 1) with hs3
  set t0 := ensureChild s2 t1 (extract_level_index va 1) with ht0
  have E0 := ensure_spec E1.inv E1.cMem hi0
  set s4 := ensureState s3 t0 (extract_level_index va 0) with hs4
  set p := ensureChild s3 t0 (extract_level_index va 0) with hp
  have hwalk : alloc_walk alwaysSucceed va 2 s1 s1.ptbr = s4 := by
    rw [alloc_walk_two_T, ← hs2, ← ht1, alloc_walk_one_T, ← hs3, ← ht0,
      alloc_walk_zero_T, ← hs4]
  rw [hwalk]
  -- address ordering along the path
  have hrt1 : s1.ptbr < t1 := E2.curLt
  have ht1t0 : t1 < t0 := E1.curLt
  have ht0p : t0 < p := E0.curLt
  have hrne1 : s1.ptbr ≠ t1 := Nat.ne_of_lt hrt1
  have hrne0 : s1.ptbr ≠ t0 := Nat.ne_of_lt (Nat.lt_trans hrt1 ht1t0)
  have ht1ne0 : t1 ≠ t0 := Nat.ne_of_lt ht1t0
  -- row transport between intermediate states
  have hrowr42 : heapGet s4.heap s1.ptbr = heapGet s2.heap s1.ptbr := by
    rw [E0.frame _ hrne0, E1.frame _ hrne1]
  have hrowt143 : heapGet s4.heap t1 = heapGet s3.heap t1 := E0.frame _ ht1ne0
  have hrowt121 : heapGet s2.heap t1 = heapGet s1.heap t1 := E2.frame _ hrne1.symm
  have hrowt032 : heapGet s3.heap t0 = heapGet s2.heap t0 := E1.frame _ ht1ne0.symm
  have hrowt021 : heapGet s2.heap t0 = heapGet s1.heap t0 := E2.frame _ hrne0.symm
  refine ⟨t1, t0, p, ?_, by
    have h2 := E2.nextBound
    have h1 := E1.nextBound
    have h0 := E0.nextBound
    omega⟩
  exact {
    inv := E0.inv
    ptbrEq := by rw [E0.ptbrEq, E1.ptbrEq, E2.ptbrEq]
    ptbrKeep := fun _ => rfl
    rFresh := by
      intro hz hmem
      have := hinv1.pos _ hmem
      rw [hz] at this
      exact absurd this (Nat.lt_irrefl 0)
    nextLe := Nat.le_trans E2.nextLe (Nat.le_trans E1.nextLe E0.nextLe)
    nextBound := by
      have h2 := E2.nextBound
      have h1 := E1.nextBound
      have h0 := E0.nextBound
      omega
    rMem := E0.keysMono _ (E1.keysMono _ E2.curMem)
    t1Mem := E0.keysMono _ E1.curMem
    t0Mem := E0.curMem
    pMem := E0.cMem
    rLt := hrt1
    t1Lt := ht1t0
    t0Lt := ht0p
    e2Valid := by rw [readEntry_of_rowEq hrowr42]; exact E2.validEntry
    e2Phys := by rw [readEntry_of_rowEq hrowr42]; exact E2.physEntry
    e1Valid := by rw [readEntry_of_rowEq hrowt143]; exact E1.validEntry
    e1Phys := by rw [readEntry_of_rowEq hrowt143]; exact E1.physEntry
    e0Valid := E0.validEntry
    e0Phys := E0.physEntry
    keysMono := fun b hb => E0.keysMono _ (E1.keysMono _ (E2.keysMono _ hb))
    frame := by
      intro b hbr hbt1 hbt0
      rw [E0.frame _ hbt0, E1.frame _ hbt1, E2.frame _ hbr]
    rowR := by
      rcases E2.rowCur with h | h
      · exact Or.inl (hrowr42.trans h)
      · right
        rw [hrowr42, h, readEntry_of_rowEq hrowr42 (extract_level_index va 2)]
    rowT1 := by
      rcases E1.rowCur with h | h
      · exact Or.inl ((hrowt143.trans h).trans hrowt121)
      · right
        rw [hrowt143, h, hrowt121,
          readEntry_of_rowEq hrowt143 (extract_level_index va 1)]
    rowT0 := by
      rcases E0.rowCur with h | h
      · exact Or.inl (h.trans (hrowt032.trans hrowt021))
      · right
        rw [h, hrowt032, hrowt021]
    t1Old := by
      intro hmem
      rcases E2.cCases with ⟨_, _, hval, hphys⟩ | ⟨hnot, _⟩
      · exact ⟨hval, hphys⟩
      · exact absurd hmem hnot
    t0Old := by
      intro hmem
      have hmem2 : t0 ∈ heapKeys s2.heap := E2.keysMono _ hmem
      rcases E1.cCases with ⟨_, _, hval, hphys⟩ | ⟨hnot, _⟩
      · rw [readEntry_of_rowEq hrowt121 (extract_level_index va 1)] at hval hphys
        have ht1mem : t1 ∈ heapKeys s1.heap := by
          by_contra hcon
          rw [readEntry_not_mem _ hcon, isValidPte_zero] at hval
          exact absurd hval (by simp)
        exact ⟨ht1mem, hval, hphys⟩
      · exact absurd hmem2 hnot }

/-- Master characterization of `page_allocate` under a never-failing
allocator, from any well-formed state. -/
theorem page_allocate_T_spec {s : State} (hInv : Inv s) (va : Nat) :
    ∃ r t1 t0 p, AllocSpec s (page_allocate alwaysSucceed s va) va r t1 t0 p := by
  by_cases h0 : s.ptbr = 0
  · -- no root yet: create one, then walk
    have hinv1 : Inv (rootCreate s) := inv_push_gen hInv (Or.inr rfl)
    have hrmem : (rootCreate s).ptbr ∈ heapKeys (rootCreate s).heap := by
      show s.next * PAGE_SIZE ∈ heapKeys ((s.next * PAGE_SIZE, zeroTable) :: s.heap)
      rw [heapKeys_cons]
      exact List.mem_cons_self _ _
    obtain ⟨t1, t0, p, W, hbound⟩ := alloc_walk2_spec hinv1 va hrmem
    have hpa : page_allocate alwaysSucceed s va =
        alloc_walk alwaysSucceed va 2 (rootCreate s) (rootCreate s).ptbr :=
      page_allocate_T_root s va h0
    rw [hpa]
    have hrow := rootCreate_row hInv
    have hrnext : (rootCreate s).next = s.next + 1 := rfl
    refine ⟨(rootCreate s).ptbr, t1, t0, p, ?_⟩
    exact {
      inv := W.inv
      ptbrEq := W.ptbrEq
      ptbrKeep := fun hne => absurd h0 hne
      rFresh := fun _ => hInv.fresh_not_mem
      nextLe := Nat.le_trans (Nat.le_succ _) W.nextLe
      nextBound := by
        rw [hrnext] at hbound
        omega
      rMem := W.rMem
      t1Mem := W.t1Mem
      t0Mem := W.t0Mem
      pMem := W.pMem
      rLt := W.rLt
      t1Lt := W.t1Lt
      t0Lt := W.t0Lt
      e2Valid := W.e2Valid
      e2Phys := W.e2Phys
      e1Valid := W.e1Valid
      e1Phys := W.e1Phys
      e0Valid := W.e0Valid
      e0Phys := W.e0Phys
      keysMono := fun b hb => W.keysMono b (List.mem_cons_of_mem _ hb)
      frame := by
        intro b hbr hbt1 hbt0
        rw [W.frame b hbr hbt1 hbt0]
        exact hrow b
      rowR := by
        rcases W.rowR with h | h
        · exact Or.inl (h.trans (hrow _))
        · right
          rw [h, hrow]
      rowT1 := by
        rcases W.rowT1 with h | h
        · exact Or.inl (h.trans (hrow _))
        · right
          rw [h, hrow]
      rowT0 := by
        rcases W.rowT0 with h | h
        · exact Or.inl (h.trans (hrow _))
        · right
          rw [h, hrow]
      t1Old := by
        intro hmem
        obtain ⟨hval, hphys⟩ := W.t1Old (List.mem_cons_of_mem _ hmem)
        rw [readEntry_of_rowEq (hrow _) (extract_level_index va 2)] at hval hphys
        exact ⟨hval, hphys⟩
      t0Old := by
        intro hmem
        obtain ⟨_, hval, hphys⟩ := W.t0Old (List.mem_cons_of_mem _ hmem)
        rw [readEntry_of_rowEq (hrow _) (extract_level_index va 1)] at hval hphys
        have ht1mem : t1 ∈ heapKeys s.heap := by
          by_contra hcon
          rw [readEntry_not_mem _ hcon, isValidPte_zero] at hval
          exact absurd hval (by simp)
        exact ⟨ht1mem, hval, hphys⟩ }
  · -- root exists: walk from it
    have hrmem : s.ptbr ∈ heapKeys s.heap := hInv.ptbrMem.resolve_left h0
    obtain ⟨t1, t0, p, W, _⟩ := alloc_walk2_spec hInv va hrmem
    rw [page_allocate_T_go s va h0]
    exact ⟨s.ptbr, t1, t0, p, W⟩

/-! ## `translate` along a valid path -/

theorem translate_walk_two (h : Heap) (va cur : Nat) :
    translate_walk h va cur 2 =
      if ENTRIES_PER_TABLE ≤ extract_level_index va 2 then NOT_MAPPED
      else if !isValidPte (readEntry h cur (extract_level_index va 2)) then NOT_MAPPED
      else translate_walk h va
        (ENTRY_TO_PHYS_ADDR (readEntry h cur (extract_level_index va 2))) 1 := rfl

theorem translate_walk_one (h : Heap) (va cur : Nat) :
    translate_walk h va cur 1 =
      if ENTRIES_PER_TABLE ≤ extract_level_index va 1 then NOT_MAPPED
      else if !isValidPte (readEntry h cur (extract_level_index va 1)) then NOT_MAPPED
      else translate_walk h va
        (ENTRY_TO_PHYS_ADDR (readEntry h cur (extract_level_index va 1))) 0 := rfl

theorem translate_walk_leaf (h : Heap) (va cur : Nat) :
    translate_walk h va cur 0 =
      if ENTRIES_PER_TABLE ≤ extract_level_index va 0 then NOT_MAPPED
      else if !isValidPte (readEntry h cur (extract_level_index va 0)) then NOT_MAPPED
      else ENTRY_TO_PHYS_ADDR (readEntry h cur (extract_level_index va 0))
        ||| page_offset va := rfl

/-- `translate` follows a fully valid three-level path and reassembles
the leaf entry's address bits with the original page offset. -/
theorem translate_path {s : State} {va r t1 t0 : Nat}
    (hptbr : s.ptbr = r) (hr0 : r ≠ 0)
    (h2v : isValidPte (readEntry s.heap r (extract_level_index va 2)) = true)
    (h2p : ENTRY_TO_PHYS_ADDR (readEntry s.heap r (extract_level_index va 2)) = t1)
    (h1v : isValidPte (readEntry s.heap t1 (extract_level_index va 1)) = true)
    (h1p : ENTRY_TO_PHYS_ADDR (readEntry s.heap t1 (extract_level_index va 1)) = t0)
    (h0v : isValidPte (readEntry s.heap t0 (extract_level_index va 0)) = true) :
    translate s va =
      ENTRY_TO_PHYS_ADDR (readEntry s.heap t0 (extract_level_index va 0))
        ||| page_offset va := by
  unfold translate
  rw [if_neg (by rw [hptbr]; exact hr0)]
  have hL : LEVELS - 1 = 2 := rfl
  rw [hL, hptbr, translate_walk_two,
    if_neg (Nat.not_le.mpr (extract_level_index_lt va 2)), h2v]
  simp only [Bool.not_true, Bool.false_eq_true, if_false]
  rw [h2p, translate_walk_one,
    if_neg (Nat.not_le.mpr (extract_level_index_lt va 1)), h1v]
  simp only [Bool.not_true, Bool.false_eq_true, if_false]
  rw [h1p, translate_walk_leaf,
    if_neg (Nat.not_le.mpr (extract_level_index_lt va 0)), h0v]
  simp only [Bool.not_true, Bool.false_eq_true, if_false]

/-- C1.  For every in-bounds virtual address `v`, after `page_allocate(v)`
succeeds (modelled by a never-failing backing allocator), `translate(v)`
is not the all-ones `NOT_MAPPED` sentinel, and the low `POBITS` bits of
the returned physical address equal the low `POBITS` bits of `v` (the
reassembly uses the original address's offset bits).  The hypothesis
`hfit` says the allocator hands out blocks that fit below the 64-bit
all-ones sentinel, as real `posix_memalign` does. -/
theorem alloc_translate_roundtrip {s : State} (hInv : Inv s) (va : Nat)
    (hva : is_address_valid va = true)
    (hfit : (s.next + 4) * PAGE_SIZE ≤ 2 ^ 64 - 1) :
    translate (page_allocate alwaysSucceed s va) va ≠ NOT_MAPPED ∧
    translate (page_allocate alwaysSucceed s va) va % 2 ^ POBITS
      = va % 2 ^ POBITS := by
  obtain ⟨r, t1, t0, p, A⟩ := page_allocate_T_spec hInv va
  set s' := page_allocate alwaysSucceed s va
  have hr0 : r ≠ 0 := Nat.ne_of_gt (A.inv.pos r A.rMem)
  have htr := translate_path A.ptbrEq hr0 A.e2Valid A.e2Phys A.e1Valid A.e1Phys A.e0Valid
  rw [htr, A.e0Phys]
  have hpal : p % PAGE_SIZE = 0 := A.inv.aligned p A.pMem
  have hofflt : page_offset va < PAGE_SIZE := page_offset_lt va
  have hadd : p ||| page_offset va = p + page_offset va :=
    aligned_or_eq_add hpal hofflt
  have hplt : p < s'.next * PAGE_SIZE := A.inv.ltNext p A.pMem
  have hnb : s'.next ≤ s.next + 4 := A.nextBound
  constructor
  · -- the result is strictly below the all-ones sentinel
    rw [hadd]
    intro hcon
    obtain ⟨k, hk⟩ := Nat.dvd_of_mod_eq_zero hpal
    have hle : s'.next * PAGE_SIZE ≤ (s.next + 4) * PAGE_SIZE :=
      Nat.mul_le_mul_right _ hnb
    rw [PAGE_SIZE_eq] at hk hofflt hplt hle hfit
    rw [NOT_MAPPED] at hcon
    omega
  · rw [hadd]
    have hsplit : (p + page_offset va) % 2 ^ POBITS = page_offset va % 2 ^ POBITS := by
      obtain ⟨k, hk⟩ := Nat.dvd_of_mod_eq_zero hpal
      rw [PAGE_SIZE_eq] at hk
      rw [show (2 : Nat) ^ POBITS = 2 ^ 10 from rfl]
      omega
    have hofflt2 : page_offset va < 2 ^ POBITS := by
      rw [show (2 : Nat) ^ POBITS = 2 ^ 10 from rfl]
      rw [PAGE_SIZE_eq] at hofflt
      exact hofflt
    rw [hsplit, Nat.mod_eq_of_lt hofflt2, page_offset_eq_mod]

/-- Witness for C1 at the initial state and `va = 3`. -/
theorem alloc_translate_roundtrip_witness :
    translate (page_allocate alwaysSucceed initState 3) 3 ≠ NOT_MAPPED ∧
    translate (page_allocate alwaysSucceed initState 3) 3 % 2 ^ POBITS
      = 3 % 2 ^ POBITS :=
  alloc_translate_roundtrip inv_initState 3 (by decide) (by decide)

/-! ## `page_allocate` with an arbitrary allocator oracle -/

theorem page_allocate_go (ora : Nat → Bool) (s : State) (va : Nat) (h0 : s.ptbr ≠ 0) :
    page_allocate ora s va = alloc_walk ora va 2 s s.ptbr := by
  simp [page_allocate, is_address_valid_always, h0, LEVELS]

theorem alloc_walk_succ_valid (ora : Nat → Bool) (va l : Nat) (s : State) (cur : Nat)
    (hv : isValidPte (readEntry s.heap cur (extract_level_index va (l + 1))) = true) :
    alloc_walk ora va (l + 1) s cur =
      alloc_walk ora va l s
        (ENTRY_TO_PHYS_ADDR (readEntry s.heap cur (extract_level_index va (l + 1)))) := by
  simp [alloc_walk, hv]

theorem alloc_walk_zero_valid (ora : Nat → Bool) (va : Nat) (s : State) (cur : Nat)
    (hv : isValidPte (readEntry s.heap cur (extract_level_index va 0)) = true) :
    alloc_walk ora va 0 s cur = s := by
  simp [alloc_walk, hv]

theorem alloc_walk_two_valid (ora : Nat → Bool) (va : Nat) (s : State) (cur : Nat)
    (hv : isValidPte (readEntry s.heap cur (extract_level_index va 2)) = true) :
    alloc_walk ora va 2 s cur =
      alloc_walk ora va 1 s
        (ENTRY_TO_PHYS_ADDR (readEntry s.heap cur (extract_level_index va 2))) :=
  alloc_walk_succ_valid ora va 1 s cur hv

theorem alloc_walk_one_valid (ora : Nat → Bool) (va : Nat) (s : State) (cur : Nat)
    (hv : isValidPte (readEntry s.heap cur (extract_level_index va 1)) = true) :
    alloc_walk ora va 1 s cur =
      alloc_walk ora va 0 s
        (ENTRY_TO_PHYS_ADDR (readEntry s.heap cur (extract_level_index va 1))) :=
  alloc_walk_succ_valid ora va 0 s cur hv

/-- C3.  `page_allocate` is idempotent: after a successful
`page_allocate(v)`, a second call — under any allocator oracle — returns
the state completely unchanged (no table or data page is replaced, no PTE
changes), so `translate(v)` is unchanged as well. -/
theorem alloc_idempotent {s : State} (hInv : Inv s) (va : Nat) (ora2 : Nat → Bool) :
    page_allocate ora2 (page_allocate alwaysSucceed s va) va
      = page_allocate alwaysSucceed s va ∧
    translate (page_allocate ora2 (page_allocate alwaysSucceed s va) va) va
      = translate (page_allocate alwaysSucceed s va) va := by
  obtain ⟨r, t1, t0, p, A⟩ := page_allocate_T_spec hInv va
  set s' := page_allocate alwaysSucceed s va
  have h0' : s'.ptbr ≠ 0 := by
    rw [A.ptbrEq]
    exact Nat.ne_of_gt (A.inv.pos r A.rMem)
  have heq : page_allocate ora2 s' va = s' := by
    rw [page_allocate_go ora2 s' va h0', A.ptbrEq,
      alloc_walk_two_valid ora2 va s' r A.e2Valid, A.e2Phys,
      alloc_walk_one_valid ora2 va s' t1 A.e1Valid, A.e1Phys,
      alloc_walk_zero_valid ora2 va s' t0 A.e0Valid]
  exact ⟨heq, by rw [heq]⟩

/-- Witness for C3 at the initial state, `va = 0`, second oracle failing
every allocation. -/
theorem alloc_idempotent_witness :
    page_allocate (fun _ => false) (page_allocate alwaysSucceed initState 0) 0
      = page_allocate alwaysSucceed initState 0 ∧
    translate (page_allocate (fun _ => false)
        (page_allocate alwaysSucceed initState 0) 0) 0
      = translate (page_allocate alwaysSucceed initState 0) 0 :=
  alloc_idempotent inv_initState 0 (fun _ => false)

/-- The walk of `page_allocate` never changes `ptbr`, whatever the
oracle does. -/
theorem alloc_walk_ptbr (ora : Nat → Bool) (va : Nat) :
    ∀ (l : Nat) (s : State) (cur : Nat), (alloc_walk ora va l s cur).ptbr = s.ptbr := by
  intro l
  induction l with
  | zero =>
    intro s cur
    by_cases hv : isValidPte (readEntry s.heap cur (extract_level_index va 0)) = true
    · simp [alloc_walk, hv]
    · by_cases ho : ora s.next = true <;>
        simp [alloc_walk, allocate_aligned_page, ho, Bool.eq_false_iff.mpr hv]
  | succ l ih =>
    intro s cur
    by_cases hv : isValidPte (readEntry s.heap cur (extract_level_index va (l + 1))) = true
    · rw [alloc_walk_succ_valid ora va l s cur hv]
      exact ih s _
    · by_cases ho : ora s.next = true
      · have : alloc_walk ora va (l + 1) s cur =
            alloc_walk ora va l
              { heap := heapSetEntry ((s.next * PAGE_SIZE, zeroTable) :: s.heap) cur
                  (extract_level_index va (l + 1))
                  (ENTRY_TO_PHYS_ADDR (s.next * PAGE_SIZE) ||| VALID_FLAG),
                ptbr := s.ptbr, next := s.next + 1 }
              (ENTRY_TO_PHYS_ADDR (readEntry
                (heapSetEntry ((s.next * PAGE_SIZE, zeroTable) :: s.heap) cur
                  (extract_level_index va (l + 1))
                  (ENTRY_TO_PHYS_ADDR (s.next * PAGE_SIZE) ||| VALID_FLAG))
                cur (extract_level_index va (l + 1)))) := by
          simp [alloc_walk, allocate_aligned_page, ho, Bool.eq_false_iff.mpr hv]
        rw [this, ih]
      · simp [alloc_walk, allocate_aligned_page, Bool.eq_false_iff.mpr ho,
          Bool.eq_false_iff.mpr hv]

/-- `page_allocate` preserves the invariant whatever the oracle does —
in particular across mid-walk allocation failures. -/
theorem inv_alloc_walk (ora : Nat → Bool) (va : Nat) :
    ∀ (l : Nat) (s : State) (cur : Nat), Inv s → cur ∈ heapKeys s.heap →
      Inv (alloc_walk ora va l s cur) := by
  intro l
  induction l with
  | zero =>
    intro s cur hInv hcur
    by_cases hv : isValidPte (readEntry s.heap cur (extract_level_index va 0)) = true
    · rw [alloc_walk_zero_valid ora va s cur hv]
      exact hInv
    · by_cases ho : ora s.next = true
      · have : alloc_walk ora va 0 s cur =
            { heap := heapSetEntry ((s.next * PAGE_SIZE, zeroTable) :: s.heap) cur
                (extract_level_index va 0)
                (ENTRY_TO_PHYS_ADDR (s.next * PAGE_SIZE) ||| VALID_FLAG),
              ptbr := s.ptbr, next := s.next + 1 } := by
          simp [alloc_walk, allocate_aligned_page, ho, Bool.eq_false_iff.mpr hv]
        rw [this]
        exact inv_install hInv hcur (extract_level_index_lt va 0)
      · have : alloc_walk ora va 0 s cur = s := by
          simp [alloc_walk, allocate_aligned_page, Bool.eq_false_iff.mpr ho,
            Bool.eq_false_iff.mpr hv]
        rw [this]
        exact hInv
  | succ l ih =>
    intro s cur hInv hcur
    by_cases hv : isValidPte (readEntry s.heap cur (extract_level_index va (l + 1))) = true
    · rw [alloc_walk_succ_valid ora va l s cur hv]
      exact ih s _ hInv
        (hInv.childMem cur hcur _ (extract_level_index_lt va (l + 1)) hv).1
    · by_cases ho : ora s.next = true
      · have hstep : alloc_walk ora va (l + 1) s cur =
            alloc_walk ora va l
              { heap := heapSetEntry ((s.next * PAGE_SIZE, zeroTable) :: s.heap) cur
                  (extract_level_index va (l + 1))
                  (ENTRY_TO_PHYS_ADDR (s.next * PAGE_SIZE) ||| VALID_FLAG),
                ptbr := s.ptbr, next := s.next + 1 }
              (ENTRY_TO_PHYS_ADDR (readEntry
                (heapSetEntry ((s.next * PAGE_SIZE, zeroTable) :: s.heap) cur
                  (extract_level_index va (l + 1))
                  (ENTRY_TO_PHYS_ADDR (s.next * PAGE_SIZE) ||| VALID_FLAG))
                cur (extract_level_index va (l + 1)))) := by
          simp [alloc_walk, allocate_aligned_page, ho, Bool.eq_false_iff.mpr hv]
        rw [hstep]
        have hread := install_read hInv hcur (extract_level_index_lt va (l + 1))
          cur (extract_level_index va (l + 1)) hcur
        rw [if_pos ⟨rfl, rfl⟩] at hread
        have hphysf : ENTRY_TO_PHYS_ADDR
            (ENTRY_TO_PHYS_ADDR (s.next * PAGE_SIZE) ||| VALID_FLAG)
            = s.next * PAGE_SIZE := by
          rw [phys_of_aligned (fresh_aligned s.next)]
          exact entry_to_phys_or_one (fresh_aligned s.next)
        rw [hread, hphysf]
        refine ih _ _ (inv_install hInv hcur (extract_level_index_lt va (l + 1))) ?_
        show s.next * PAGE_SIZE ∈ heapKeys (heapSetEntry
          ((s.next * PAGE_SIZE, zeroTable) :: s.heap) cur
          (extract_level_index va (l + 1))
          (ENTRY_TO_PHYS_ADDR (s.next * PAGE_SIZE) ||| VALID_FLAG))
        rw [heapKeys_setEntry, heapKeys_cons]
        exact List.mem_cons_self _ _
      · have : alloc_walk ora va (l + 1) s cur = s := by
          simp [alloc_walk, allocate_aligned_page, Bool.eq_false_iff.mpr ho,
            Bool.eq_false_iff.mpr hv]
        rw [this]
        exact hInv

theorem inv_page_allocate (ora : Nat → Bool) {s : State} (hInv : Inv s) (va : Nat) :
    Inv (page_allocate ora s va) := by
  by_cases h0 : s.ptbr = 0
  · by_cases ho : ora s.next = true
    · have : page_allocate ora s va =
          alloc_walk ora va 2 (rootCreate s) (rootCreate s).ptbr := by
        simp [page_allocate, is_address_valid_always, h0, allocate_aligned_page,
          ho, rootCreate, LEVELS]
      rw [this]
      refine inv_alloc_walk ora va 2 _ _ (inv_push_gen hInv (Or.inr rfl)) ?_
      show s.next * PAGE_SIZE ∈ heapKeys ((s.next * PAGE_SIZE, zeroTable) :: s.heap)
      rw [heapKeys_cons]
      exact List.mem_cons_self _ _
    · have : page_allocate ora s va = s := by
        simp [page_allocate, is_address_valid_always, h0, allocate_aligned_page,
          Bool.eq_false_iff.mpr ho]
      rw [this]
      exact hInv
  · rw [page_allocate_go ora s va h0]
    exact inv_alloc_walk ora va 2 s s.ptbr hInv (hInv.ptbrMem.resolve_left h0)

/-! ## `page_deallocate`: walk inversion and cleanup characterization -/

theorem dealloc_walk_two (h : Heap) (va cur : Nat) :
    dealloc_walk h va cur 2 =
      if isValidPte (readEntry h cur (extract_level_index va 2)) then
        match dealloc_walk h va
            (ENTRY_TO_PHYS_ADDR (readEntry h cur (extract_level_index va 2))) 1 with
        | none => none
        | some path => some (path ++ [(cur, extract_level_index va 2)])
      else none := rfl

theorem dealloc_walk_one (h : Heap) (va cur : Nat) :
    dealloc_walk h va cur 1 =
      if isValidPte (readEntry h cur (extract_level_index va 1)) then
        match dealloc_walk h va
            (ENTRY_TO_PHYS_ADDR (readEntry h cur (extract_level_index va 1))) 0 with
        | none => none
        | some path => some (path ++ [(cur, extract_level_index va 1)])
      else none := rfl

theorem dealloc_walk_leaf (h : Heap) (va cur : Nat) :
    dealloc_walk h va cur 0 =
      if isValidPte (readEntry h cur (extract_level_index va 0)) then
        some [(cur, extract_level_index va 0)]
      else none := rfl

/-- Inversion of a successful three-level validating walk: the recorded
path is exactly the levels' tables and indices, and each recorded entry
passed the `VALID_FLAG` test. -/
theorem dealloc_walk_inv {h : Heap} {va cur : Nat} {path : List (Nat × Nat)}
    (hw : dealloc_walk h va cur 2 = some path) :
    isValidPte (readEntry h cur (extract_level_index va 2)) = true ∧
    isValidPte (readEntry h
      (ENTRY_TO_PHYS_ADDR (readEntry h cur (extract_level_index va 2)))
      (extract_level_index va 1)) = true ∧
    isValidPte (readEntry h
      (ENTRY_TO_PHYS_ADDR (readEntry h
        (ENTRY_TO_PHYS_ADDR (readEntry h cur (extract_level_index va 2)))
        (extract_level_index va 1)))
      (extract_level_index va 0)) = true ∧
    path = [(ENTRY_TO_PHYS_ADDR (readEntry h
        (ENTRY_TO_PHYS_ADDR (readEntry h cur (extract_level_index va 2)))
        (extract_level_index va 1)), extract_level_index va 0),
      (ENTRY_TO_PHYS_ADDR (readEntry h cur (extract_level_index va 2)),
        extract_level_index va 1),
      (cur, extract_level_index va 2)] := by
  rw [dealloc_walk_two] at hw
  by_cases hv2 : isValidPte (readEntry h cur (extract_level_index va 2)) = true
  · rw [if_pos hv2] at hw
    rw [dealloc_walk_one] at hw
    by_cases hv1 : isValidPte (readEntry h
        (ENTRY_TO_PHYS_ADDR (readEntry h cur (extract_level_index va 2)))
        (extract_level_index va 1)) = true
    · rw [if_pos hv1] at hw
      rw [dealloc_walk_leaf] at hw
      by_cases hv0 : isValidPte (readEntry h
          (ENTRY_TO_PHYS_ADDR (readEntry h
            (ENTRY_TO_PHYS_ADDR (readEntry h cur (extract_level_index va 2)))
            (extract_level_index va 1)))
          (extract_level_index va 0)) = true
      · rw [if_pos hv0] at hw
        simp only [List.cons_append, List.nil_append, Option.some.injEq] at hw
        exact ⟨hv2, hv1, hv0, hw.symm⟩
      · rw [if_neg hv0] at hw
        simp at hw
    · rw [if_neg hv1] at hw
      simp at hw
  · rw [if_neg hv2] at hw
    simp at hw

/-- Reduction of `page_deallocate` on a successful walk. -/
theorem page_deallocate_some {s : State} {va : Nat} (h0 : s.ptbr ≠ 0)
    {a0 j0 a1 j1 a2 j2 : Nat}
    (hw : dealloc_walk s.heap va s.ptbr 2 = some [(a0, j0), (a1, j1), (a2, j2)]) :
    page_deallocate s va =
      (true, { s with heap := dealloc_cleanup (heapSetEntry s.heap a0 j0 0) [(a0, j0), (a1, j1), (a2, j2)] }) := by
  have hL : (LEVELS - 1 : Nat) = 2 := rfl
  unfold page_deallocate
  rw [if_neg h0, hL, hw]

theorem page_deallocate_no_root {s : State} (va : Nat) (h0 : s.ptbr = 0) :
    page_deallocate s va = (false, s) := by
  unfold page_deallocate
  rw [if_pos h0]

theorem page_deallocate_walk_none {s : State} {va : Nat} (h0 : s.ptbr ≠ 0)
    (hw : dealloc_walk s.heap va s.ptbr 2 = none) :
    page_deallocate s va = (false, s) := by
  have hL : (LEVELS - 1 : Nat) = 2 := rfl
  unfold page_deallocate
  rw [if_neg h0, hL, hw]

/-- Unfolding of the upward cleanup over a recorded three-level path:
free the level-0 table if it is now entirely empty and clear its parent
slot; then likewise for the level-1 table; the root (last on the path) is
never freed; the walk stops at the first non-empty table. -/
theorem dealloc_cleanup_three (h : Heap) (a0 j0 a1 j1 a2 j2 : Nat) :
    dealloc_cleanup h [(a0, j0), (a1, j1), (a2, j2)] =
      if tableEmpty h a0 then
        if tableEmpty (heapSetEntry (heapFree h a0) a1 j1 0) a1 then
          heapSetEntry (heapFree (heapSetEntry (heapFree h a0) a1 j1 0) a1) a2 j2 0
        else heapSetEntry (heapFree h a0) a1 j1 0
      else h := by
  have hstep1 : dealloc_cleanup h ((a0, j0) :: (a1, j1) :: [(a2, j2)]) =
      if tableEmpty h a0 then
        dealloc_cleanup (heapSetEntry (heapFree h a0) a1 j1 0) ((a1, j1) :: [(a2, j2)])
      else h := rfl
  have hstep2 : dealloc_cleanup (heapSetEntry (heapFree h a0) a1 j1 0)
      ((a1, j1) :: [(a2, j2)]) =
      if tableEmpty (heapSetEntry (heapFree h a0) a1 j1 0) a1 then
        dealloc_cleanup
          (heapSetEntry (heapFree (heapSetEntry (heapFree h a0) a1 j1 0) a1) a2 j2 0)
          [(a2, j2)]
      else heapSetEntry (heapFree h a0) a1 j1 0 := rfl
  have hstep3 : dealloc_cleanup
      (heapSetEntry (heapFree (heapSetEntry (heapFree h a0) a1 j1 0) a1) a2 j2 0)
      [(a2, j2)] =
      heapSetEntry (heapFree (heapSetEntry (heapFree h a0) a1 j1 0) a1) a2 j2 0 := rfl
  by_cases he0 : tableEmpty h a0 = true
  · rw [if_pos he0, hstep1, if_pos he0, hstep2]
    by_cases he1 : tableEmpty (heapSetEntry (heapFree h a0) a1 j1 0) a1 = true
    · rw [if_pos he1, if_pos he1, hstep3]
    · rw [if_neg he1, if_neg he1]
  · rw [if_neg he0, hstep1, if_neg he0]

/-- The level-1 table on `va`'s recorded path (child of the root entry). -/
def pathT1 (s : State) (va : Nat) : Nat :=
  ENTRY_TO_PHYS_ADDR (readEntry s.heap s.ptbr (extract_level_index va 2))

/-- The level-0 table on `va`'s recorded path (child of the level-1 entry). -/
def pathT0 (s : State) (va : Nat) : Nat :=
  ENTRY_TO_PHYS_ADDR (readEntry s.heap (pathT1 s va) (extract_level_index va 1))

/-- The heap after `page_deallocate` clears the leaf entry. -/
def stage1 (s : State) (va : Nat) : Heap :=
  heapSetEntry s.heap (pathT0 s va) (extract_level_index va 0) 0

/-- The heap after the cleanup additionally frees the empty level-0 table
and clears its slot in the level-1 table. -/
def stage2 (s : State) (va : Nat) : Heap :=
  heapSetEntry (heapFree (stage1 s va) (pathT0 s va)) (pathT1 s va)
    (extract_level_index va 1) 0

/-- The heap after the cleanup additionally frees the empty level-1 table
and clears its slot in the root. -/
def stage3 (s : State) (va : Nat) : Heap :=
  heapSetEntry (heapFree (stage2 s va) (pathT1 s va)) s.ptbr
    (extract_level_index va 2) 0

/-- The facts a successful deallocation walk establishes about the path. -/
structure DeallocCtx (s : State) (va : Nat) : Prop where
  v2 : isValidPte (readEntry s.heap s.ptbr (extract_level_index va 2)) = true
  v1 : isValidPte (readEntry s.heap (pathT1 s va) (extract_level_index va 1)) = true
  v0 : isValidPte (readEntry s.heap (pathT0 s va) (extract_level_index va 0)) = true
  rMem : s.ptbr ∈ heapKeys s.heap
  t1Mem : pathT1 s va ∈ heapKeys s.heap
  t0Mem : pathT0 s va ∈ heapKeys s.heap
  rLt : s.ptbr < pathT1 s va
  t1Lt : pathT1 s va < pathT0 s va

theorem dealloc_ctx {s : State} (hInv : Inv s) {va : Nat} (h0 : s.ptbr ≠ 0)
    {path : List (Nat × Nat)}
    (hw : dealloc_walk s.heap va s.ptbr 2 = some path) : DeallocCtx s va := by
  obtain ⟨hv2, hv1, hv0, _⟩ := dealloc_walk_inv hw
  have hrmem : s.ptbr ∈ heapKeys s.heap := hInv.ptbrMem.resolve_left h0
  obtain ⟨ht1mem, hrlt, _⟩ :=
    hInv.childMem s.ptbr hrmem _ (extract_level_index_lt va 2) hv2
  obtain ⟨ht0mem, ht1lt, _⟩ :=
    hInv.childMem (pathT1 s va) ht1mem _ (extract_level_index_lt va 1) hv1
  exact ⟨hv2, hv1, hv0, hrmem, ht1mem, ht0mem, hrlt, ht1lt⟩

theorem DeallocCtx.rNeT1 {s : State} {va : Nat} (c : DeallocCtx s va) :
    s.ptbr ≠ pathT1 s va := Nat.ne_of_lt c.rLt

theorem DeallocCtx.rNeT0 {s : State} {va : Nat} (c : DeallocCtx s va) :
    s.ptbr ≠ pathT0 s va := Nat.ne_of_lt (Nat.lt_trans c.rLt c.t1Lt)

theorem DeallocCtx.t1NeT0 {s : State} {va : Nat} (c : DeallocCtx s va) :
    pathT1 s va ≠ pathT0 s va := Nat.ne_of_lt c.t1Lt

/-- Reads in `stage1`: only the leaf slot `(pathT0, index 0)` changed. -/
theorem stage1_read {s : State} (hInv : Inv s) {va : Nat} (c : DeallocCtx s va)
    (b j : Nat) :
    readEntry (stage1 s va) b j =
      if b = pathT0 s va ∧ j = extract_level_index va 0 then 0
      else readEntry s.heap b j := by
  by_cases hb : b = pathT0 s va
  · subst hb
    by_cases hj : j = extract_level_index va 0
    · subst hj
      rw [if_pos ⟨rfl, rfl⟩]
      unfold stage1
      refine readEntry_setEntry_self _ _ c.t0Mem ?_
      rw [hInv.rowLen c.t0Mem]
      exact extract_level_index_lt va 0
    · rw [if_neg (fun hc => hj hc.2)]
      exact readEntry_setEntry_ne_idx _ _ _ hj
  · rw [if_neg (fun hc => hb hc.1)]
    exact readEntry_setEntry_ne _ _ _ hb

/-- Reads in `stage2`: additionally the level-0 table is gone and the
slot `(pathT1, index 1)` is cleared; all other rows are untouched. -/
theorem stage2_read {s : State} (hInv : Inv s) {va : Nat} (c : DeallocCtx s va)
    (b j : Nat) (hbt0 : b ≠ pathT0 s va) :
    readEntry (stage2 s va) b j =
      if b = pathT1 s va ∧ j = extract_level_index va 1 then 0
      else readEntry s.heap b j := by
  have ht1mem1 : pathT1 s va ∈ heapKeys (heapFree (stage1 s va) (pathT0 s va)) := by
    refine mem_heapKeys_heapFree c.t1NeT0 ?_
    show pathT1 s va ∈ heapKeys (stage1 s va)
    unfold stage1
    rw [heapKeys_setEntry]
    exact c.t1Mem
  by_cases hb : b = pathT1 s va
  · subst hb
    by_cases hj : j = extract_level_index va 1
    · subst hj
      rw [if_pos ⟨rfl, rfl⟩]
      unfold stage2
      refine readEntry_setEntry_self _ _ ht1mem1 ?_
      rw [heapGet_heapFree_ne c.t1NeT0]
      unfold stage1
      rw [heapGet_setEntry_ne _ _ c.t1NeT0, hInv.rowLen c.t1Mem]
      exact extract_level_index_lt va 1
    · rw [if_neg (fun hc => hj hc.2)]
      unfold stage2
      rw [readEntry_setEntry_ne_idx _ _ _ hj, readEntry_heapFree_ne _ c.t1NeT0]
      unfold stage1
      exact readEntry_setEntry_ne _ _ _ c.t1NeT0
  · rw [if_neg (fun hc => hb hc.1)]
    unfold stage2
    rw [readEntry_setEntry_ne _ _ _ hb, readEntry_heapFree_ne _ hbt0]
    unfold stage1
    exact readEntry_setEntry_ne _ _ _ hbt0

/-- Reads in `stage3`: additionally the level-1 table is gone and the
root slot `(ptbr, index 2)` is cleared. -/
theorem stage3_read {s : State} (hInv : Inv s) {va : Nat} (c : DeallocCtx s va)
    (b j : Nat) (hbt0 : b ≠ pathT0 s va) (hbt1 : b ≠ pathT1 s va) :
    readEntry (stage3 s va) b j =
      if b = s.ptbr ∧ j = extract_level_index va 2 then 0
      else readEntry s.heap b j := by
  have hrmem2 : s.ptbr ∈ heapKeys (heapFree (stage2 s va) (pathT1 s va)) := by
    refine mem_heapKeys_heapFree c.rNeT1 ?_
    show s.ptbr ∈ heapKeys (stage2 s va)
    unfold stage2
    rw [heapKeys_setEntry]
    refine mem_heapKeys_heapFree c.rNeT0 ?_
    show s.ptbr ∈ heapKeys (stage1 s va)
    unfold stage1
    rw [heapKeys_setEntry]
    exact c.rMem
  by_cases hb : b = s.ptbr
  · subst hb
    by_cases hj : j = extract_level_index va 2
    · subst hj
      rw [if_pos ⟨rfl, rfl⟩]
      unfold stage3
      refine readEntry_setEntry_self _ _ hrmem2 ?_
      rw [heapGet_heapFree_ne c.rNeT1]
      unfold stage2
      rw [heapGet_setEntry_ne _ _ c.rNeT1, heapGet_heapFree_ne c.rNeT0]
      unfold stage1
      rw [heapGet_setEntry_ne _ _ c.rNeT0, hInv.rowLen c.rMem]
      exact extract_level_index_lt va 2
    · rw [if_neg (fun hc => hj hc.2)]
      unfold stage3
      rw [readEntry_setEntry_ne_idx _ _ _ hj, readEntry_heapFree_ne _ c.rNeT1]
      have := stage2_read hInv c s.ptbr j c.rNeT0
      rw [if_neg (fun hc => c.rNeT1 hc.1)] at this
      exact this
  · rw [if_neg (fun hc => hb hc.1)]
    unfold stage3
    rw [readEntry_setEntry_ne _ _ _ hb, readEntry_heapFree_ne _ hbt1]
    have := stage2_read hInv c b j hbt0
    rw [if_neg (fun hc => hbt1 hc.1)] at this
    exact this

/-- The final heap of a successful `page_deallocate`: `stage1`, `stage2`
or `stage3` according to which recorded tables have become entirely
empty. -/
def deallocHeap (s : State) (va : Nat) : Heap :=
  if tableEmpty (stage1 s va) (pathT0 s va) then
    if tableEmpty (stage2 s va) (pathT1 s va) then stage3 s va else stage2 s va
  else stage1 s va

/-- Master equation for a successful `page_deallocate`. -/
theorem dealloc_master {s : State} (hInv : Inv s) {va : Nat} (h0 : s.ptbr ≠ 0)
    {path : List (Nat × Nat)}
    (hw : dealloc_walk s.heap va s.ptbr 2 = some path) :
    page_deallocate s va = (true, { s with heap := deallocHeap s va }) := by
  obtain ⟨hv2, hv1, hv0, hpath⟩ := dealloc_walk_inv hw
  subst hpath
  rw [page_deallocate_some h0 hw]
  rw [show ENTRY_TO_PHYS_ADDR (readEntry s.heap
      (ENTRY_TO_PHYS_ADDR (readEntry s.heap s.ptbr (extract_level_index va 2)))
      (extract_level_index va 1)) = pathT0 s va from rfl,
    show ENTRY_TO_PHYS_ADDR (readEntry s.heap s.ptbr (extract_level_index va 2))
      = pathT1 s va from rfl]
  rw [dealloc_cleanup_three]
  rfl

/-- The three stage heaps preserve the invariant. -/
theorem inv_stage1 {s : State} (hInv : Inv s) (va : Nat) :
    Inv { s with heap := stage1 s va } :=
  inv_clear hInv _ _

theorem inv_stage2 {s : State} (hInv : Inv s) {va : Nat} (c : DeallocCtx s va) :
    Inv { s with heap := stage2 s va } := by
  have hs1 : Inv { s with heap := stage1 s va } := inv_stage1 hInv va
  have hmem1 : pathT1 s va ∈ heapKeys (stage1 s va) := by
    unfold stage1
    rw [heapKeys_setEntry]
    exact c.t1Mem
  have hval1 : isValidPte (readEntry (stage1 s va) (pathT1 s va)
      (extract_level_index va 1)) = true := by
    rw [stage1_read hInv c, if_neg (fun hc => c.t1NeT0 hc.1)]
    exact c.v1
  have hphys1 : ENTRY_TO_PHYS_ADDR (readEntry (stage1 s va) (pathT1 s va)
      (extract_level_index va 1)) = pathT0 s va := by
    rw [stage1_read hInv c, if_neg (fun hc => c.t1NeT0 hc.1)]
    rfl
  exact inv_free_clear hs1 hmem1 (extract_level_index_lt va 1) hval1 hphys1

theorem inv_stage3 {s : State} (hInv : Inv s) {va : Nat} (c : DeallocCtx s va) :
    Inv { s with heap := stage3 s va } := by
  have hs2 : Inv { s with heap := stage2 s va } := inv_stage2 hInv c
  have hmem2 : s.ptbr ∈ heapKeys (stage2 s va) := by
    unfold stage2
    rw [heapKeys_setEntry]
    refine mem_heapKeys_heapFree c.rNeT0 ?_
    unfold stage1
    rw [heapKeys_setEntry]
    exact c.rMem
  have hval2 : isValidPte (readEntry (stage2 s va) s.ptbr
      (extract_level_index va 2)) = true := by
    rw [stage2_read hInv c _ _ c.rNeT0, if_neg (fun hc => c.rNeT1 hc.1)]
    exact c.v2
  have hphys2 : ENTRY_TO_PHYS_ADDR (readEntry (stage2 s va) s.ptbr
      (extract_level_index va 2)) = pathT1 s va := by
    rw [stage2_read hInv c _ _ c.rNeT0, if_neg (fun hc => c.rNeT1 hc.1)]
    rfl
  exact inv_free_clear hs2 hmem2 (extract_level_index_lt va 2) hval2 hphys2

/-- `page_deallocate` preserves the invariant. -/
theorem inv_page_deallocate {s : State} (hInv : Inv s) (va : Nat) :
    Inv (page_deallocate s va).2 := by
  by_cases h0 : s.ptbr = 0
  · rw [page_deallocate_no_root va h0]
    exact hInv
  · cases hw : dealloc_walk s.heap va s.ptbr 2 with
    | none =>
      rw [page_deallocate_walk_none h0 hw]
      exact hInv
    | some path =>
      have c := dealloc_ctx hInv h0 hw
      rw [dealloc_master hInv h0 hw]
      show Inv { s with heap := deallocHeap s va }
      unfold deallocHeap
      by_cases he0 : tableEmpty (stage1 s va) (pathT0 s va) = true
      · rw [if_pos he0]
        by_cases he1 : tableEmpty (stage2 s va) (pathT1 s va) = true
        · rw [if_pos he1]
          exact inv_stage3 hInv c
        · rw [if_neg he1]
          exact inv_stage2 hInv c
      · rw [if_neg he0]
        exact inv_stage1 hInv va

/-! ## `translate` failure cases and C2 -/

theorem translate_no_root {s : State} (va : Nat) (h0 : s.ptbr = 0) :
    translate s va = NOT_MAPPED := by
  unfold translate
  rw [if_pos h0]

theorem translate_nm_two {s : State} {va : Nat}
    (hv : isValidPte (readEntry s.heap s.ptbr (extract_level_index va 2)) = false) :
    translate s va = NOT_MAPPED := by
  by_cases h0 : s.ptbr = 0
  · exact translate_no_root va h0
  unfold translate
  rw [if_neg h0]
  have hL : (LEVELS - 1 : Nat) = 2 := rfl
  rw [hL, translate_walk_two, if_neg (Nat.not_le.mpr (extract_level_index_lt va 2)), hv]
  simp

theorem translate_nm_one {s : State} {va : Nat}
    (hv : isValidPte (readEntry s.heap (pathT1 s va) (extract_level_index va 1))
      = false) :
    translate s va = NOT_MAPPED := by
  by_cases h0 : s.ptbr = 0
  · exact translate_no_root va h0
  by_cases hv2 : isValidPte (readEntry s.heap s.ptbr (extract_level_index va 2)) = true
  · unfold translate
    rw [if_neg h0]
    have hL : (LEVELS - 1 : Nat) = 2 := rfl
    rw [hL, translate_walk_two,
      if_neg (Nat.not_le.mpr (extract_level_index_lt va 2)), hv2]
    simp only [Bool.not_true, Bool.false_eq_true, if_false]
    rw [show ENTRY_TO_PHYS_ADDR (readEntry s.heap s.ptbr (extract_level_index va 2))
      = pathT1 s va from rfl]
    rw [translate_walk_one, if_neg (Nat.not_le.mpr (extract_level_index_lt va 1)), hv]
    simp
  · exact translate_nm_two (Bool.eq_false_iff.mpr hv2)

theorem translate_nm_zero {s : State} {va : Nat}
    (hv : isValidPte (readEntry s.heap (pathT0 s va) (extract_level_index va 0))
      = false) :
    translate s va = NOT_MAPPED := by
  by_cases h0 : s.ptbr = 0
  · exact translate_no_root va h0
  by_cases hv2 : isValidPte (readEntry s.heap s.ptbr (extract_level_index va 2)) = true
  · by_cases hv1 : isValidPte (readEntry s.heap (pathT1 s va)
        (extract_level_index va 1)) = true
    · unfold translate
      rw [if_neg h0]
      have hL : (LEVELS - 1 : Nat) = 2 := rfl
      rw [hL, translate_walk_two,
        if_neg (Nat.not_le.mpr (extract_level_index_lt va 2)), hv2]
      simp only [Bool.not_true, Bool.false_eq_true, if_false]
      rw [show ENTRY_TO_PHYS_ADDR (readEntry s.heap s.ptbr (extract_level_index va 2))
        = pathT1 s va from rfl]
      rw [translate_walk_one,
        if_neg (Nat.not_le.mpr (extract_level_index_lt va 1)), hv1]
      simp only [Bool.not_true, Bool.false_eq_true, if_false]
      rw [show ENTRY_TO_PHYS_ADDR (readEntry s.heap (pathT1 s va)
          (extract_level_index va 1)) = pathT0 s va from rfl]
      rw [translate_walk_leaf,
        if_neg (Nat.not_le.mpr (extract_level_index_lt va 0)), hv]
      simp
    · exact translate_nm_one (Bool.eq_false_iff.mpr hv1)
  · exact translate_nm_two (Bool.eq_false_iff.mpr hv2)

/-- Completing a successful walk into a recorded path. -/
theorem dealloc_walk_some_of_valid {h : Heap} {va cur : Nat}
    (hv2 : isValidPte (readEntry h cur (extract_level_index va 2)) = true)
    (hv1 : isValidPte (readEntry h
      (ENTRY_TO_PHYS_ADDR (readEntry h cur (extract_level_index va 2)))
      (extract_level_index va 1)) = true)
    (hv0 : isValidPte (readEntry h
      (ENTRY_TO_PHYS_ADDR (readEntry h
        (ENTRY_TO_PHYS_ADDR (readEntry h cur (extract_level_index va 2)))
        (extract_level_index va 1)))
      (extract_level_index va 0)) = true) :
    dealloc_walk h va cur 2 = some
      [(ENTRY_TO_PHYS_ADDR (readEntry h
          (ENTRY_TO_PHYS_ADDR (readEntry h cur (extract_level_index va 2)))
          (extract_level_index va 1)), extract_level_index va 0),
        (ENTRY_TO_PHYS_ADDR (readEntry h cur (extract_level_index va 2)),
          extract_level_index va 1),
        (cur, extract_level_index va 2)] := by
  rw [dealloc_walk_two, if_pos hv2, dealloc_walk_one, if_pos hv1,
    dealloc_walk_leaf, if_pos hv0]
  rfl

/-- C2.  For every virtual address `v`, `page_allocate(v)` (with a
never-failing backing allocator) followed by `page_deallocate(v)` has the
deallocate call return true, and a subsequent `translate(v)` returns the
all-ones `NOT_MAPPED` sentinel. -/
theorem alloc_dealloc_removes_mapping {s : State} (hInv : Inv s) (va : Nat) :
    (page_deallocate (page_allocate alwaysSucceed s va) va).1 = true ∧
    translate (page_deallocate (page_allocate alwaysSucceed s va) va).2 va
      = NOT_MAPPED := by
  obtain ⟨r, t1, t0, p, A⟩ := page_allocate_T_spec hInv va
  set s' := page_allocate alwaysSucceed s va
  have h0' : s'.ptbr ≠ 0 := by
    rw [A.ptbrEq]
    exact Nat.ne_of_gt (A.inv.pos r A.rMem)
  -- the path functions evaluated at s'
  have hpt1 : pathT1 s' va = t1 := by
    unfold pathT1
    rw [A.ptbrEq, A.e2Phys]
  have hpt0 : pathT0 s' va = t0 := by
    unfold pathT0
    rw [hpt1, A.e1Phys]
  have hv2' : isValidPte (readEntry s'.heap s'.ptbr (extract_level_index va 2))
      = true := by rw [A.ptbrEq]; exact A.e2Valid
  have hv1' : isValidPte (readEntry s'.heap
      (ENTRY_TO_PHYS_ADDR (readEntry s'.heap s'.ptbr (extract_level_index va 2)))
      (extract_level_index va 1)) = true := by
    rw [show ENTRY_TO_PHYS_ADDR (readEntry s'.heap s'.ptbr (extract_level_index va 2))
      = pathT1 s' va from rfl, hpt1]
    exact A.e1Valid
  have hv0' : isValidPte (readEntry s'.heap
      (ENTRY_TO_PHYS_ADDR (readEntry s'.heap
        (ENTRY_TO_PHYS_ADDR (readEntry s'.heap s'.ptbr (extract_level_index va 2)))
        (extract_level_index va 1)))
      (extract_level_index va 0)) = true := by
    rw [show ENTRY_TO_PHYS_ADDR (readEntry s'.heap
        (ENTRY_TO_PHYS_ADDR (readEntry s'.heap s'.ptbr (extract_level_index va 2)))
        (extract_level_index va 1)) = pathT0 s' va from rfl, hpt0]
    exact A.e0Valid
  have hw := dealloc_walk_some_of_valid hv2' hv1' hv0'
  have c := dealloc_ctx A.inv h0' hw
  rw [dealloc_master A.inv h0' hw]
  refine ⟨rfl, ?_⟩
  show translate { s' with heap := deallocHeap s' va } va = NOT_MAPPED
  set sd := { s' with heap := deallocHeap s' va } with hsd
  have hsdptbr : sd.ptbr = s'.ptbr := rfl
  have hsdheap : sd.heap = deallocHeap s' va := rfl
  -- path functions at sd agree with those at s' as long as the relevant
  -- rows read equal, which we establish per cleanup case below
  unfold deallocHeap at hsdheap
  by_cases he0 : tableEmpty (stage1 s' va) (pathT0 s' va) = true
  · by_cases he1 : tableEmpty (stage2 s' va) (pathT1 s' va) = true
    · -- both intermediate tables freed: the root slot itself is cleared
      have hheap : sd.heap = stage3 s' va := by
        rw [hsdheap, if_pos he0, if_pos he1]
      refine translate_nm_two ?_
      rw [hheap, hsdptbr]
      rw [stage3_read A.inv c _ _ c.rNeT0 c.rNeT1, if_pos ⟨rfl, rfl⟩]
      exact isValidPte_zero
    · -- leaf table freed, level-1 slot cleared
      have hheap : sd.heap = stage2 s' va := by
        rw [hsdheap, if_pos he0, if_neg he1]
      refine translate_nm_one ?_
      have hp1 : pathT1 sd va = pathT1 s' va := by
        unfold pathT1
        rw [hheap, hsdptbr, stage2_read A.inv c _ _ c.rNeT0,
          if_neg (fun hc => c.rNeT1 hc.1)]
      rw [hp1, hheap, stage2_read A.inv c _ _ c.t1NeT0, if_pos ⟨rfl, rfl⟩]
      exact isValidPte_zero
  · -- leaf table still non-empty: only the leaf slot was cleared
    have hheap : sd.heap = stage1 s' va := by
      rw [hsdheap, if_neg he0]
    refine translate_nm_zero ?_
    have hp1 : pathT1 sd va = pathT1 s' va := by
      unfold pathT1
      rw [hheap, hsdptbr, stage1_read A.inv c, if_neg (fun hc => c.rNeT0 hc.1)]
    have hp0 : pathT0 sd va = pathT0 s' va := by
      unfold pathT0
      rw [hp1, hheap, stage1_read A.inv c, if_neg (fun hc => c.t1NeT0 hc.1)]
    rw [hp0, hheap, stage1_read A.inv c, if_pos ⟨rfl, rfl⟩]
    exact isValidPte_zero

/-- Witness for C2 at the initial state and `va = 0`. -/
theorem alloc_dealloc_removes_mapping_witness :
    (page_deallocate (page_allocate alwaysSucceed initState 0) 0).1 = true ∧
    translate (page_deallocate (page_allocate alwaysSucceed initState 0) 0).2 0
      = NOT_MAPPED :=
  alloc_dealloc_removes_mapping inv_initState 0

theorem not_mem_heapKeys_heapFree_of_not_mem {h : Heap} {a b : Nat}
    (hb : b ∉ heapKeys h) : b ∉ heapKeys (heapFree h a) := fun hmem =>
  hb ((heapKeys_heapFree_sublist h a).mem hmem)

/-- C5.  After `page_deallocate` clears the leaf entry of a mapped
address, the upward walk frees an ancestor table exactly when every one
of its entries is invalid, clearing the corresponding entry in that
table's parent, and stops immediately at the first table that still has
a valid entry, leaving all higher ancestors untouched. -/
theorem dealloc_upward_cleanup {s : State} (hInv : Inv s) {va : Nat}
    (h0 : s.ptbr ≠ 0) {path : List (Nat × Nat)}
    (hw : dealloc_walk s.heap va s.ptbr (LEVELS - 1) = some path) :
    (page_deallocate s va).1 = true ∧
    (page_deallocate s va).2.heap = deallocHeap s va ∧
    (tableEmpty (stage1 s va) (pathT0 s va) = false →
      (page_deallocate s va).2.heap = stage1 s va ∧
      pathT0 s va ∈ heapKeys (page_deallocate s va).2.heap) ∧
    (tableEmpty (stage1 s va) (pathT0 s va) = true →
      pathT0 s va ∉ heapKeys (page_deallocate s va).2.heap ∧
      readEntry (page_deallocate s va).2.heap (pathT1 s va)
        (extract_level_index va 1) = 0) ∧
    (tableEmpty (stage1 s va) (pathT0 s va) = true →
      tableEmpty (stage2 s va) (pathT1 s va) = false →
      (page_deallocate s va).2.heap = stage2 s va ∧
      heapGet (page_deallocate s va).2.heap s.ptbr = heapGet s.heap s.ptbr ∧
      pathT1 s va ∈ heapKeys (page_deallocate s va).2.heap) ∧
    (tableEmpty (stage1 s va) (pathT0 s va) = true →
      tableEmpty (stage2 s va) (pathT1 s va) = true →
      pathT1 s va ∉ heapKeys (page_deallocate s va).2.heap ∧
      readEntry (page_deallocate s va).2.heap s.ptbr
        (extract_level_index va 2) = 0) := by
  have hwL : dealloc_walk s.heap va s.ptbr 2 = some path := hw
  have c := dealloc_ctx hInv h0 hwL
  rw [dealloc_master hInv h0 hwL]
  have hkeys1 : heapKeys (stage1 s va) = heapKeys s.heap := by
    unfold stage1
    exact heapKeys_setEntry ..
  have hnd1 : (heapKeys (stage1 s va)).Nodup := by
    rw [hkeys1]
    exact hInv.nodup
  have hkeys2 : heapKeys (stage2 s va)
      = heapKeys (heapFree (stage1 s va) (pathT0 s va)) := by
    unfold stage2
    exact heapKeys_setEntry ..
  have hnd2 : (heapKeys (stage2 s va)).Nodup := by
    rw [hkeys2]
    exact nodup_heapKeys_heapFree hnd1
  refine ⟨rfl, rfl, ?_, ?_, ?_, ?_⟩
  · intro he0
    have hh : deallocHeap s va = stage1 s va := by
      unfold deallocHeap
      rw [he0]
      simp
    refine ⟨hh, ?_⟩
    show pathT0 s va ∈ heapKeys (deallocHeap s va)
    rw [hh, hkeys1]
    exact c.t0Mem
  · intro he0
    show pathT0 s va ∉ heapKeys (deallocHeap s va) ∧
      readEntry (deallocHeap s va) (pathT1 s va) (extract_level_index va 1) = 0
    unfold deallocHeap
    rw [he0, if_pos rfl]
    by_cases he1 : tableEmpty (stage2 s va) (pathT1 s va) = true
    · rw [if_pos he1]
      constructor
      · show pathT0 s va ∉ heapKeys (stage3 s va)
        unfold stage3
        rw [heapKeys_setEntry]
        refine not_mem_heapKeys_heapFree_of_not_mem ?_
        rw [hkeys2]
        exact not_mem_heapKeys_heapFree hnd1
      · show readEntry (stage3 s va) (pathT1 s va) (extract_level_index va 1) = 0
        unfold stage3
        rw [readEntry_setEntry_ne _ _ _ c.rNeT1.symm]
        refine readEntry_not_mem _ ?_
        exact not_mem_heapKeys_heapFree hnd2
    · rw [if_neg he1]
      constructor
      · show pathT0 s va ∉ heapKeys (stage2 s va)
        rw [hkeys2]
        exact not_mem_heapKeys_heapFree hnd1
      · rw [stage2_read hInv c _ _ c.t1NeT0, if_pos ⟨rfl, rfl⟩]
  · intro he0 he1
    have hh : deallocHeap s va = stage2 s va := by
      unfold deallocHeap
      rw [he0, he1]
      simp
    refine ⟨hh, ?_, ?_⟩
    · show heapGet (deallocHeap s va) s.ptbr = heapGet s.heap s.ptbr
      rw [hh]
      unfold stage2
      rw [heapGet_setEntry_ne _ _ c.rNeT1, heapGet_heapFree_ne c.rNeT0]
      unfold stage1
      exact heapGet_setEntry_ne _ _ c.rNeT0
    · show pathT1 s va ∈ heapKeys (deallocHeap s va)
      rw [hh, hkeys2]
      refine mem_heapKeys_heapFree c.t1NeT0 ?_
      rw [hkeys1]
      exact c.t1Mem
  · intro he0 he1
    have hh : deallocHeap s va = stage3 s va := by
      unfold deallocHeap
      rw [he0, he1]
      simp
    constructor
    · show pathT1 s va ∉ heapKeys (deallocHeap s va)
      rw [hh]
      unfold stage3
      rw [heapKeys_setEntry]
      exact not_mem_heapKeys_heapFree hnd2
    · show readEntry (deallocHeap s va) s.ptbr (extract_level_index va 2) = 0
      rw [hh, stage3_read hInv c _ _ c.rNeT0 c.rNeT1, if_pos ⟨rfl, rfl⟩]

/-- C6.  The root table is never freed by `page_deallocate` even when it
becomes fully empty (only intermediate tables participate in the
emptiness-driven free), and `ptbr`, once set, is never reset by any
operation. -/
theorem root_never_freed_ptbr_persistent (s : State) (va : Nat)
    (ora : Nat → Bool) (hInv : Inv s) :
    (page_deallocate s va).2.ptbr = s.ptbr ∧
    (s.ptbr ∈ heapKeys s.heap → s.ptbr ∈ heapKeys (page_deallocate s va).2.heap) ∧
    (s.ptbr ≠ 0 → (page_allocate ora s va).ptbr = s.ptbr) := by
  have halloc : s.ptbr ≠ 0 → (page_allocate ora s va).ptbr = s.ptbr := by
    intro h0
    rw [page_allocate_go ora s va h0]
    exact alloc_walk_ptbr ora va 2 s s.ptbr
  by_cases h0 : s.ptbr = 0
  · rw [page_deallocate_no_root va h0]
    exact ⟨rfl, fun h => h, halloc⟩
  · cases hw : dealloc_walk s.heap va s.ptbr 2 with
    | none =>
      rw [page_deallocate_walk_none h0 hw]
      exact ⟨rfl, fun h => h, halloc⟩
    | some path =>
      have c := dealloc_ctx hInv h0 hw
      rw [dealloc_master hInv h0 hw]
      refine ⟨rfl, ?_, halloc⟩
      intro hmem
      show s.ptbr ∈ heapKeys (deallocHeap s va)
      have hkeys1 : heapKeys (stage1 s va) = heapKeys s.heap := by
        unfold stage1
        exact heapKeys_setEntry ..
      unfold deallocHeap
      by_cases he0 : tableEmpty (stage1 s va) (pathT0 s va) = true
      · rw [if_pos he0]
        by_cases he1 : tableEmpty (stage2 s va) (pathT1 s va) = true
        · rw [if_pos he1]
          unfold stage3
          rw [heapKeys_setEntry]
          refine mem_heapKeys_heapFree c.rNeT1 ?_
          unfold stage2
          rw [heapKeys_setEntry]
          refine mem_heapKeys_heapFree c.rNeT0 ?_
          rw [hkeys1]
          exact hmem
        · rw [if_neg he1]
          unfold stage2
          rw [heapKeys_setEntry]
          refine mem_heapKeys_heapFree c.rNeT0 ?_
          rw [hkeys1]
          exact hmem
      · rw [if_neg he0, hkeys1]
        exact hmem

/-- Witness for C6 at a state with one mapping. -/
theorem root_never_freed_ptbr_persistent_witness :
    (page_deallocate (page_allocate alwaysSucceed initState 0) 5).2.ptbr
      = (page_allocate alwaysSucceed initState 0).ptbr ∧
    ((page_allocate alwaysSucceed initState 0).ptbr
        ∈ heapKeys (page_allocate alwaysSucceed initState 0).heap →
      (page_allocate alwaysSucceed initState 0).ptbr
        ∈ heapKeys (page_deallocate (page_allocate alwaysSucceed initState 0) 5).2.heap) ∧
    ((page_allocate alwaysSucceed initState 0).ptbr ≠ 0 →
      (page_allocate alwaysSucceed (page_allocate alwaysSucceed initState 0) 5).ptbr
        = (page_allocate alwaysSucceed initState 0).ptbr) :=
  root_never_freed_ptbr_persistent (page_allocate alwaysSucceed initState 0) 5
    alwaysSucceed (inv_page_allocate alwaysSucceed inv_initState 0)

/-- C7.  If no root exists, or any level along `v`'s path holds an
invalid PTE, `page_deallocate(v)` returns false and performs no mutation
at all: the returned state is exactly the input state. -/
theorem dealloc_unmapped_no_mutation {s : State} {va : Nat}
    (h : s.ptbr = 0 ∨ dealloc_walk s.heap va s.ptbr (LEVELS - 1) = none) :
    page_deallocate s va = (false, s) := by
  rcases h with h0 | hw
  · exact page_deallocate_no_root va h0
  · by_cases h0 : s.ptbr = 0
    · exact page_deallocate_no_root va h0
    · exact page_deallocate_walk_none h0 hw

/-- Witness for C7 at the initial state. -/
theorem dealloc_unmapped_no_mutation_witness :
    page_deallocate initState 7 = (false, initState) :=
  dealloc_unmapped_no_mutation (Or.inl rfl)

/-- C8.  `translate` is read-only — in this embedding it is a pure
function of the state, mirroring the write-free C body — and when no root
exists it returns the all-ones `NOT_MAPPED` sentinel. -/
theorem translate_no_root_sentinel (s : State) (va : Nat) (h0 : s.ptbr = 0) :
    translate s va = NOT_MAPPED :=
  translate_no_root va h0

/-- Witness for C8 at the initial state. -/
theorem translate_no_root_sentinel_witness :
    translate initState 9 = NOT_MAPPED :=
  translate_no_root_sentinel initState 9 rfl

/-- C9.  An address with an out-of-range index at any level is rejected
by `page_allocate` before touching any state.  Under this configuration
the guard is vacuous — `is_address_valid` accepts every address — so the
claim is stated as the equivalent disjunction. -/
theorem alloc_bounds_rejection (ora : Nat → Bool) (s : State) (va : Nat) :
    is_address_valid va = true ∨ page_allocate ora s va = s := by
  by_cases hv : is_address_valid va = true
  · exact Or.inl hv
  · right
    unfold page_allocate
    rw [Bool.eq_false_iff.mpr hv]
    rfl

/-- C10.  Every extracted per-level index is strictly below
`ENTRIES_PER_TABLE`, so `is_address_valid` accepts every input and
`page_allocate` never refuses an address on bounds grounds. -/
theorem extract_index_always_in_bounds (va level : Nat) :
    extract_level_index va level < ENTRIES_PER_TABLE ∧
    is_address_valid va = true :=
  ⟨extract_level_index_lt va level, is_address_valid_always va⟩

/-- Witness for C5: deallocating the only mapping of a freshly built
state exercises the cleanup with every hypothesis discharged. -/
theorem dealloc_upward_cleanup_witness :
    (page_deallocate (page_allocate alwaysSucceed initState 0) 0).1 = true :=
  (dealloc_upward_cleanup (inv_page_allocate alwaysSucceed inv_initState 0)
    (by decide)
    (show dealloc_walk (page_allocate alwaysSucceed initState 0).heap 0
        (page_allocate alwaysSucceed initState 0).ptbr (LEVELS - 1)
      = some [(3072, 0), (2048, 0), (1024, 0)] by decide)).1

/-! ## C4: the no-empty-tables invariant over reachable states -/

/-- States reachable from the initial state by any sequence of
`page_allocate` (under any allocator oracle, so mid-walk allocation
failures are included) and `page_deallocate` calls. -/
inductive Reachable : State → Prop where
  | init : Reachable initState
  | alloc (ora : Nat → Bool) (va : Nat) {s : State} :
      Reachable s → Reachable (page_allocate ora s va)
  | dealloc (va : Nat) {s : State} :
      Reachable s → Reachable (page_deallocate s va).2

/-- States reachable when every backing allocation succeeds. -/
inductive ReachableOK : State → Prop where
  | init : ReachableOK initState
  | alloc (va : Nat) {s : State} :
      ReachableOK s → ReachableOK (page_allocate alwaysSucceed s va)
  | dealloc (va : Nat) {s : State} :
      ReachableOK s → ReachableOK (page_deallocate s va).2

theorem reachableOK_reachable {s : State} (h : ReachableOK s) : Reachable s := by
  induction h with
  | init => exact Reachable.init
  | alloc va _ ih => exact Reachable.alloc alwaysSucceed va ih
  | dealloc va _ ih => exact Reachable.dealloc va ih

theorem reachable_inv {s : State} (h : Reachable s) : Inv s := by
  induction h with
  | init => exact inv_initState
  | alloc ora va _ ih => exact inv_page_allocate ora ih va
  | dealloc va _ ih => exact inv_page_deallocate ih va

/-- The block at `a` holds at least one valid entry. -/
def hasValidEntry (h : Heap) (a : Nat) : Prop :=
  ∃ i, i < ENTRIES_PER_TABLE ∧ isValidPte (readEntry h a i) = true

/-- The claimed invariant: along every root-reachable path, a valid
intermediate-level PTE points to a table holding at least one valid
entry (no fully-empty table stays reachable). -/
def NoEmptyTables (s : State) : Prop :=
  s.ptbr ≠ 0 →
  ∀ i2, i2 < ENTRIES_PER_TABLE →
    isValidPte (readEntry s.heap s.ptbr i2) = true →
      hasValidEntry s.heap (ENTRY_TO_PHYS_ADDR (readEntry s.heap s.ptbr i2)) ∧
      ∀ i1, i1 < ENTRIES_PER_TABLE →
        isValidPte (readEntry s.heap
          (ENTRY_TO_PHYS_ADDR (readEntry s.heap s.ptbr i2)) i1) = true →
          hasValidEntry s.heap (ENTRY_TO_PHYS_ADDR (readEntry s.heap
            (ENTRY_TO_PHYS_ADDR (readEntry s.heap s.ptbr i2)) i1))

theorem valid_read_mem {h : Heap} {a i : Nat}
    (hv : isValidPte (readEntry h a i) = true) : a ∈ heapKeys h := by
  by_contra hcon
  rw [readEntry_not_mem i hcon, isValidPte_zero] at hv
  exact absurd hv (by simp)

theorem hasValidEntry_of_rowEq {h h' : Heap} {a : Nat}
    (he : heapGet h' a = heapGet h a) (hv : hasValidEntry h a) :
    hasValidEntry h' a := by
  obtain ⟨i, hi, hvi⟩ := hv
  refine ⟨i, hi, ?_⟩
  rw [readEntry_of_rowEq he i]
  exact hvi

theorem hasValidEntry_of_not_empty {h : Heap} {a : Nat}
    (hlen : (heapGet h a).length = ENTRIES_PER_TABLE)
    (he : tableEmpty h a = false) : hasValidEntry h a := by
  unfold tableEmpty at he
  rw [List.all_eq_false] at he
  obtain ⟨x, hx, hpx⟩ := he
  obtain ⟨i, hi, hix⟩ := List.mem_iff_getElem.mp hx
  refine ⟨i, by rw [← hlen]; exact hi, ?_⟩
  have hrd : readEntry h a i = x := by
    unfold readEntry
    rw [List.getD_eq_getElem?_getD, List.getElem?_eq_getElem hi, hix]
    rfl
  rw [hrd]
  simpa using hpx

/-- Counterexample to C4 as stated: a mid-walk allocation failure inside
`page_allocate` (third allocation fails) leaves a valid root entry
pointing to a completely empty intermediate table, so the invariant does
not hold in every reachable state. -/
theorem no_empty_tables_reachable_cex :
    ¬ (∀ s : State, Reachable s → NoEmptyTables s) := by
  intro hall
  have hreach : Reachable (page_allocate (fun n => decide (n < 3)) initState 0) :=
    Reachable.alloc (fun n => decide (n < 3)) 0 Reachable.init
  have hne := hall _ hreach
  have h0 : (page_allocate (fun n => decide (n < 3)) initState 0).ptbr ≠ 0 := by
    decide
  have hvalid : isValidPte (readEntry
      (page_allocate (fun n => decide (n < 3)) initState 0).heap
      (page_allocate (fun n => decide (n < 3)) initState 0).ptbr 0) = true := by
    decide
  obtain ⟨hhas, _⟩ := hne h0 0 (by decide) hvalid
  obtain ⟨i, hi, hv⟩ := hhas
  have hall0 : ∀ j, j < ENTRIES_PER_TABLE →
      isValidPte (readEntry
        (page_allocate (fun n => decide (n < 3)) initState 0).heap
        (ENTRY_TO_PHYS_ADDR (readEntry
          (page_allocate (fun n => decide (n < 3)) initState 0).heap
          (page_allocate (fun n => decide (n < 3)) initState 0).ptbr 0)) j)
        = false := by decide
  rw [hall0 i hi] at hv
  exact absurd hv (by simp)

/-- Allocation with a never-failing allocator preserves the
no-empty-tables invariant. -/
theorem noempty_alloc {s : State} (hInv : Inv s) (hne : NoEmptyTables s)
    (va : Nat) : NoEmptyTables (page_allocate alwaysSucceed s va) := by
  obtain ⟨r, t1, t0, p, A⟩ := page_allocate_T_spec hInv va
  set s' := page_allocate alwaysSucceed s va with hs'
  intro h0' i2 hi2 hv2'
  rw [A.ptbrEq] at hv2' ⊢
  have hrowR : ∀ j, j ≠ extract_level_index va 2 →
      readEntry s'.heap r j = readEntry s.heap r j := by
    intro j hj
    rcases A.rowR with h | h
    · exact readEntry_of_rowEq h j
    · unfold readEntry
      rw [h]
      exact getD_set_ne _ hj
  have hrowT1 : ∀ j, j ≠ extract_level_index va 1 →
      readEntry s'.heap t1 j = readEntry s.heap t1 j := by
    intro j hj
    rcases A.rowT1 with h | h
    · exact readEntry_of_rowEq h j
    · unfold readEntry
      rw [h]
      exact getD_set_ne _ hj
  by_cases hc2 : i2 = extract_level_index va 2
  · subst hc2
    rw [A.e2Phys]
    refine ⟨⟨extract_level_index va 1, extract_level_index_lt va 1, A.e1Valid⟩, ?_⟩
    intro i1 hi1 hv1'
    by_cases hc1 : i1 = extract_level_index va 1
    · subst hc1
      rw [A.e1Phys]
      exact ⟨extract_level_index va 0, extract_level_index_lt va 0, A.e0Valid⟩
    · rw [hrowT1 i1 hc1] at hv1' ⊢
      have ht1mem : t1 ∈ heapKeys s.heap := valid_read_mem hv1'
      obtain ⟨hv2s, hp2s⟩ := A.t1Old ht1mem
      have hrmem : r ∈ heapKeys s.heap := valid_read_mem hv2s
      have hptbr0 : s.ptbr ≠ 0 := fun hz => A.rFresh hz hrmem
      have hreq : r = s.ptbr := A.ptbrKeep hptbr0
      obtain ⟨_, hinner⟩ := hne hptbr0 (extract_level_index va 2)
        (extract_level_index_lt va 2) (by rw [← hreq]; exact hv2s)
      rw [← hreq, hp2s] at hinner
      have hhv := hinner i1 hi1 hv1'
      obtain ⟨hdmem, hdgt, hdptbr⟩ := hInv.childMem t1 ht1mem i1 hi1 hv1'
      have hdner : ENTRY_TO_PHYS_ADDR (readEntry s.heap t1 i1) ≠ r := by
        rw [hreq]
        exact hdptbr
      have hdnet1 : ENTRY_TO_PHYS_ADDR (readEntry s.heap t1 i1) ≠ t1 :=
        Nat.ne_of_gt hdgt
      have hdnet0 : ENTRY_TO_PHYS_ADDR (readEntry s.heap t1 i1) ≠ t0 := by
        intro hdeq
        by_cases ht0mem : t0 ∈ heapKeys s.heap
        · obtain ⟨ht1m, hvt1, hpt1⟩ := A.t0Old ht0mem
          have := hInv.inj t1 ht1mem t1 ht1m i1 hi1 (extract_level_index va 1)
            (extract_level_index_lt va 1) hv1' hvt1 (by rw [hpt1, hdeq])
          exact hc1 this.2
        · exact ht0mem (hdeq ▸ hdmem)
      exact hasValidEntry_of_rowEq (A.frame _ hdner hdnet1 hdnet0) hhv
  · rw [hrowR i2 hc2] at hv2' ⊢
    have hrmem : r ∈ heapKeys s.heap := valid_read_mem hv2'
    have hptbr0 : s.ptbr ≠ 0 := fun hz => A.rFresh hz hrmem
    have hreq : r = s.ptbr := A.ptbrKeep hptbr0
    obtain ⟨hhc2, hinner⟩ := hne hptbr0 i2 hi2 (by rw [← hreq]; exact hv2')
    rw [← hreq] at hhc2 hinner
    obtain ⟨hc2mem, hc2gt, hc2ptbr⟩ := hInv.childMem r hrmem i2 hi2 hv2'
    have hc2ner : ENTRY_TO_PHYS_ADDR (readEntry s.heap r i2) ≠ r :=
      fun he => hc2ptbr (he.trans hreq)
    have hc2net1 : ENTRY_TO_PHYS_ADDR (readEntry s.heap r i2) ≠ t1 := by
      intro he
      by_cases ht1mem : t1 ∈ heapKeys s.heap
      · obtain ⟨hv2s, hp2s⟩ := A.t1Old ht1mem
        have := hInv.inj r hrmem r (valid_read_mem hv2s) i2 hi2
          (extract_level_index va 2) (extract_level_index_lt va 2) hv2' hv2s
          (by rw [hp2s, he])
        exact hc2 this.2
      · exact ht1mem (he ▸ hc2mem)
    have hc2net0 : ENTRY_TO_PHYS_ADDR (readEntry s.heap r i2) ≠ t0 := by
      intro he
      by_cases ht0mem : t0 ∈ heapKeys s.heap
      · obtain ⟨ht1m, hvt1, hpt1⟩ := A.t0Old ht0mem
        have := hInv.inj r hrmem t1 ht1m i2 hi2 (extract_level_index va 1)
          (extract_level_index_lt va 1) hv2' hvt1 (by rw [hpt1, he])
        exact Nat.ne_of_lt A.rLt this.1
      · exact ht0mem (he ▸ hc2mem)
    have hrowc2 : heapGet s'.heap (ENTRY_TO_PHYS_ADDR (readEntry s.heap r i2))
        = heapGet s.heap (ENTRY_TO_PHYS_ADDR (readEntry s.heap r i2)) :=
      A.frame _ hc2ner hc2net1 hc2net0
    refine ⟨hasValidEntry_of_rowEq hrowc2 hhc2, ?_⟩
    intro i1 hi1 hv1'
    rw [readEntry_of_rowEq hrowc2 i1] at hv1' ⊢
    have hhd := hinner i1 hi1 hv1'
    obtain ⟨hdmem, hdgt, hdptbr⟩ := hInv.childMem _ hc2mem i1 hi1 hv1'
    have hdner : ENTRY_TO_PHYS_ADDR
        (readEntry s.heap (ENTRY_TO_PHYS_ADDR (readEntry s.heap r i2)) i1) ≠ r :=
      fun he => hdptbr (he.trans hreq)
    have hdnet1 : ENTRY_TO_PHYS_ADDR
        (readEntry s.heap (ENTRY_TO_PHYS_ADDR (readEntry s.heap r i2)) i1) ≠ t1 := by
      intro he
      by_cases ht1mem : t1 ∈ heapKeys s.heap
      · obtain ⟨hv2s, hp2s⟩ := A.t1Old ht1mem
        have := hInv.inj _ hc2mem r hrmem i1 hi1 (extract_level_index va 2)
          (extract_level_index_lt va 2) hv1' hv2s (by rw [hp2s, he])
        exact hc2ner this.1
      · exact ht1mem (he ▸ hdmem)
    have hdnet0 : ENTRY_TO_PHYS_ADDR
        (readEntry s.heap (ENTRY_TO_PHYS_ADDR (readEntry s.heap r i2)) i1) ≠ t0 := by
      intro he
      by_cases ht0mem : t0 ∈ heapKeys s.heap
      · obtain ⟨ht1m, hvt1, hpt1⟩ := A.t0Old ht0mem
        have := hInv.inj _ hc2mem t1 ht1m i1 hi1 (extract_level_index va 1)
          (extract_level_index_lt va 1) hv1' hvt1 (by rw [hpt1, he])
        exact hc2net1 this.1
      · exact ht0mem (he ▸ hdmem)
    exact hasValidEntry_of_rowEq (A.frame _ hdner hdnet1 hdnet0) hhd

theorem stage1_row {s : State} {va b : Nat} (hb : b ≠ pathT0 s va) :
    heapGet (stage1 s va) b = heapGet s.heap b := by
  unfold stage1
  exact heapGet_setEntry_ne _ _ hb

theorem stage2_row {s : State} {va b : Nat} (hb0 : b ≠ pathT0 s va)
    (hb1 : b ≠ pathT1 s va) :
    heapGet (stage2 s va) b = heapGet s.heap b := by
  unfold stage2
  rw [heapGet_setEntry_ne _ _ hb1, heapGet_heapFree_ne hb0]
  exact stage1_row hb0

theorem stage3_row {s : State} {va b : Nat} (hb0 : b ≠ pathT0 s va)
    (hb1 : b ≠ pathT1 s va) (hbr : b ≠ s.ptbr) :
    heapGet (stage3 s va) b = heapGet s.heap b := by
  unfold stage3
  rw [heapGet_setEntry_ne _ _ hbr, heapGet_heapFree_ne hb1]
  exact stage2_row hb0 hb1

theorem noEmpty_heap_intro (s : State) (h : Heap)
    (H : s.ptbr ≠ 0 →
      ∀ i2, i2 < ENTRIES_PER_TABLE →
        isValidPte (readEntry h s.ptbr i2) = true →
          hasValidEntry h (ENTRY_TO_PHYS_ADDR (readEntry h s.ptbr i2)) ∧
          ∀ i1, i1 < ENTRIES_PER_TABLE →
            isValidPte (readEntry h
              (ENTRY_TO_PHYS_ADDR (readEntry h s.ptbr i2)) i1) = true →
              hasValidEntry h (ENTRY_TO_PHYS_ADDR (readEntry h
                (ENTRY_TO_PHYS_ADDR (readEntry h s.ptbr i2)) i1))) :
    NoEmptyTables { s with heap := h } := H

/-- Deallocation preserves the no-empty-tables invariant: this is
exactly what the emptiness scans of the upward cleanup are for. -/
theorem noempty_dealloc {s : State} (hInv : Inv s) (hne : NoEmptyTables s)
    (va : Nat) : NoEmptyTables (page_deallocate s va).2 := by
  by_cases h0 : s.ptbr = 0
  · rw [page_deallocate_no_root va h0]
    exact hne
  cases hw : dealloc_walk s.heap va s.ptbr 2 with
  | none =>
    rw [page_deallocate_walk_none h0 hw]
    exact hne
  | some path =>
    have c := dealloc_ctx hInv h0 hw
    have hi1lt := extract_level_index_lt va 1
    have hi2lt := extract_level_index_lt va 2
    have hsd : (page_deallocate s va).2 = { s with heap := deallocHeap s va } := by
      rw [dealloc_master hInv h0 hw]
    rw [hsd]
    by_cases he0 : tableEmpty (stage1 s va) (pathT0 s va) = true
    · by_cases he1 : tableEmpty (stage2 s va) (pathT1 s va) = true
      · -- both intermediate tables freed; root slot cleared
        have hh : deallocHeap s va = stage3 s va := by
          unfold deallocHeap
          rw [he0, he1]
          simp
        rw [hh]
        refine noEmpty_heap_intro s (stage3 s va) ?_
        intro _ i2 hi2 hv2'
        by_cases hi2c : i2 = extract_level_index va 2
        · subst hi2c
          rw [stage3_read hInv c _ _ c.rNeT0 c.rNeT1, if_pos ⟨rfl, rfl⟩,
            isValidPte_zero] at hv2'
          exact absurd hv2' (by simp)
        · have hrd : readEntry (stage3 s va) s.ptbr i2
              = readEntry s.heap s.ptbr i2 := by
            rw [stage3_read hInv c _ _ c.rNeT0 c.rNeT1,
              if_neg (fun hcp => hi2c hcp.2)]
          rw [hrd] at hv2' ⊢
          obtain ⟨hhc2, hinner⟩ := hne h0 i2 hi2 hv2'
          obtain ⟨hc2mem, hc2gt, hc2ptbr⟩ :=
            hInv.childMem s.ptbr c.rMem i2 hi2 hv2'
          have hc2ne1 : ENTRY_TO_PHYS_ADDR (readEntry s.heap s.ptbr i2)
              ≠ pathT1 s va := by
            intro he
            have := hInv.inj s.ptbr c.rMem s.ptbr c.rMem i2 hi2
              (extract_level_index va 2) hi2lt hv2' c.v2 he
            exact hi2c this.2
          have hc2ne0 : ENTRY_TO_PHYS_ADDR (readEntry s.heap s.ptbr i2)
              ≠ pathT0 s va := by
            intro he
            have := hInv.inj s.ptbr c.rMem (pathT1 s va) c.t1Mem i2 hi2
              (extract_level_index va 1) hi1lt hv2' c.v1 he
            exact c.rNeT1 this.1
          have hrow2 := stage3_row hc2ne0 hc2ne1 hc2ptbr
          refine ⟨hasValidEntry_of_rowEq hrow2 hhc2, ?_⟩
          intro i1 hi1 hv1'
          rw [readEntry_of_rowEq hrow2 i1] at hv1' ⊢
          have hhd := hinner i1 hi1 hv1'
          obtain ⟨hdmem, hdgt, hdptbr⟩ := hInv.childMem _ hc2mem i1 hi1 hv1'
          have hdne1 : ENTRY_TO_PHYS_ADDR (readEntry s.heap
              (ENTRY_TO_PHYS_ADDR (readEntry s.heap s.ptbr i2)) i1)
              ≠ pathT1 s va := by
            intro he
            have := hInv.inj _ hc2mem s.ptbr c.rMem i1 hi1
              (extract_level_index va 2) hi2lt hv1' c.v2 he
            exact hc2ptbr this.1
          have hdne0 : ENTRY_TO_PHYS_ADDR (readEntry s.heap
              (ENTRY_TO_PHYS_ADDR (readEntry s.heap s.ptbr i2)) i1)
              ≠ pathT0 s va := by
            intro he
            have := hInv.inj _ hc2mem (pathT1 s va) c.t1Mem i1 hi1
              (extract_level_index va 1) hi1lt hv1' c.v1 he
            exact hc2ne1 this.1
          exact hasValidEntry_of_rowEq (stage3_row hdne0 hdne1 hdptbr) hhd
      · -- leaf table freed; level-1 slot cleared; level-1 table non-empty
        have hh : deallocHeap s va = stage2 s va := by
          unfold deallocHeap
          rw [if_pos he0, if_neg he1]
        rw [hh]
        refine noEmpty_heap_intro s (stage2 s va) ?_
        intro _ i2 hi2 hv2'
        have hrd : readEntry (stage2 s va) s.ptbr i2
            = readEntry s.heap s.ptbr i2 := by
          rw [stage2_read hInv c _ _ c.rNeT0, if_neg (fun hcp => c.rNeT1 hcp.1)]
        rw [hrd] at hv2' ⊢
        obtain ⟨hhc2, hinner⟩ := hne h0 i2 hi2 hv2'
        obtain ⟨hc2mem, hc2gt, hc2ptbr⟩ :=
          hInv.childMem s.ptbr c.rMem i2 hi2 hv2'
        have hc2ne0 : ENTRY_TO_PHYS_ADDR (readEntry s.heap s.ptbr i2)
            ≠ pathT0 s va := by
          intro he
          have := hInv.inj s.ptbr c.rMem (pathT1 s va) c.t1Mem i2 hi2
            (extract_level_index va 1) hi1lt hv2' c.v1 he
          exact c.rNeT1 this.1
        by_cases hc2T1 : ENTRY_TO_PHYS_ADDR (readEntry s.heap s.ptbr i2)
            = pathT1 s va
        · rw [hc2T1]
          have hmem1 : pathT1 s va ∈ heapKeys (heapFree (stage1 s va)
              (pathT0 s va)) := by
            refine mem_heapKeys_heapFree c.t1NeT0 ?_
            show pathT1 s va ∈ heapKeys (stage1 s va)
            unfold stage1
            rw [heapKeys_setEntry]
            exact c.t1Mem
          have hlen1 : (heapGet (stage2 s va) (pathT1 s va)).length
              = ENTRIES_PER_TABLE := by
            unfold stage2
            rw [heapGet_setEntry_self _ _ hmem1, List.length_set,
              heapGet_heapFree_ne c.t1NeT0]
            unfold stage1
            rw [heapGet_setEntry_ne _ _ c.t1NeT0]
            exact hInv.rowLen c.t1Mem
          refine ⟨hasValidEntry_of_not_empty hlen1 (Bool.eq_false_iff.mpr he1), ?_⟩
          intro i1 hi1 hv1'
          by_cases hpos : i1 = extract_level_index va 1
          · subst hpos
            rw [stage2_read hInv c _ _ c.t1NeT0, if_pos ⟨rfl, rfl⟩,
              isValidPte_zero] at hv1'
            exact absurd hv1' (by simp)
          · have hrd1 : readEntry (stage2 s va) (pathT1 s va) i1
                = readEntry s.heap (pathT1 s va) i1 := by
              rw [stage2_read hInv c _ _ c.t1NeT0,
                if_neg (fun hcp => hpos hcp.2)]
            rw [hrd1] at hv1' ⊢
            have hhd := hinner i1 hi1 (by rw [hc2T1]; exact hv1')
            rw [hc2T1] at hhd
            obtain ⟨hdmem, hdgt, hdptbr⟩ :=
              hInv.childMem (pathT1 s va) c.t1Mem i1 hi1 hv1'
            have hdne0 : ENTRY_TO_PHYS_ADDR (readEntry s.heap (pathT1 s va) i1)
                ≠ pathT0 s va := by
              intro he
              have := hInv.inj (pathT1 s va) c.t1Mem (pathT1 s va) c.t1Mem
                i1 hi1 (extract_level_index va 1) hi1lt hv1' c.v1 he
              exact hpos this.2
            have hdne1 : ENTRY_TO_PHYS_ADDR (readEntry s.heap (pathT1 s va) i1)
                ≠ pathT1 s va := Nat.ne_of_gt hdgt
            exact hasValidEntry_of_rowEq (stage2_row hdne0 hdne1) hhd
        · have hrow2 := stage2_row hc2ne0 hc2T1
          refine ⟨hasValidEntry_of_rowEq hrow2 hhc2, ?_⟩
          intro i1 hi1 hv1'
          rw [readEntry_of_rowEq hrow2 i1] at hv1' ⊢
          have hhd := hinner i1 hi1 hv1'
          obtain ⟨hdmem, hdgt, hdptbr⟩ := hInv.childMem _ hc2mem i1 hi1 hv1'
          have hdne0 : ENTRY_TO_PHYS_ADDR (readEntry s.heap
              (ENTRY_TO_PHYS_ADDR (readEntry s.heap s.ptbr i2)) i1)
              ≠ pathT0 s va := by
            intro he
            have := hInv.inj _ hc2mem (pathT1 s va) c.t1Mem i1 hi1
              (extract_level_index va 1) hi1lt hv1' c.v1 he
            exact hc2T1 this.1
          have hdne1 : ENTRY_TO_PHYS_ADDR (readEntry s.heap
              (ENTRY_TO_PHYS_ADDR (readEntry s.heap s.ptbr i2)) i1)
              ≠ pathT1 s va := by
            intro he
            have := hInv.inj _ hc2mem s.ptbr c.rMem i1 hi1
              (extract_level_index va 2) hi2lt hv1' c.v2 he
            exact hc2ptbr this.1
          exact hasValidEntry_of_rowEq (stage2_row hdne0 hdne1) hhd
    · -- leaf table still non-empty: only its slot for `va` was cleared
      have hh : deallocHeap s va = stage1 s va := by
        unfold deallocHeap
        rw [if_neg he0]
      rw [hh]
      refine noEmpty_heap_intro s (stage1 s va) ?_
      intro _ i2 hi2 hv2'
      have hrd : readEntry (stage1 s va) s.ptbr i2
          = readEntry s.heap s.ptbr i2 := by
        rw [stage1_read hInv c, if_neg (fun hcp => c.rNeT0 hcp.1)]
      rw [hrd] at hv2' ⊢
      obtain ⟨hhc2, hinner⟩ := hne h0 i2 hi2 hv2'
      obtain ⟨hc2mem, hc2gt, hc2ptbr⟩ :=
        hInv.childMem s.ptbr c.rMem i2 hi2 hv2'
      have hc2ne0 : ENTRY_TO_PHYS_ADDR (readEntry s.heap s.ptbr i2)
          ≠ pathT0 s va := by
        intro he
        have := hInv.inj s.ptbr c.rMem (pathT1 s va) c.t1Mem i2 hi2
          (extract_level_index va 1) hi1lt hv2' c.v1 he
        exact c.rNeT1 this.1
      have hrow2 := stage1_row hc2ne0
      refine ⟨hasValidEntry_of_rowEq hrow2 hhc2, ?_⟩
      intro i1 hi1 hv1'
      rw [readEntry_of_rowEq hrow2 i1] at hv1' ⊢
      have hhd := hinner i1 hi1 hv1'
      by_cases hd0 : ENTRY_TO_PHYS_ADDR (readEntry s.heap
          (ENTRY_TO_PHYS_ADDR (readEntry s.heap s.ptbr i2)) i1)
          = pathT0 s va
      · rw [hd0]
        have hlen1 : (heapGet (stage1 s va) (pathT0 s va)).length
            = ENTRIES_PER_TABLE := by
          unfold stage1
          rw [heapGet_setEntry_self _ _ c.t0Mem, List.length_set]
          exact hInv.rowLen c.t0Mem
        exact hasValidEntry_of_not_empty hlen1 (Bool.eq_false_iff.mpr he0)
      · exact hasValidEntry_of_rowEq (stage1_row hd0) hhd

/-- C4 (amended).  In every state reachable from the initial state by
`page_allocate` and `page_deallocate` calls whose backing allocations all
succeed, every valid intermediate-level PTE points to a child table
containing at least one valid entry.  (As stated over all reachable
states the claim fails: a mid-walk allocation failure inside
`page_allocate` leaves a valid PTE to an empty table — see the
counterexample.) -/
theorem no_empty_tables_of_reachableOK {s : State} (h : ReachableOK s) :
    NoEmptyTables s := by
  induction h with
  | init =>
    intro h0
    exact absurd rfl h0
  | alloc va hs ih =>
    exact noempty_alloc (reachable_inv (reachableOK_reachable hs)) ih va
  | dealloc va hs ih =>
    exact noempty_dealloc (reachable_inv (reachableOK_reachable hs)) ih va

/-- Witness for the amended C4 at a state with one mapping. -/
theorem no_empty_tables_of_reachableOK_witness :
    NoEmptyTables (page_allocate alwaysSucceed initState 0) :=
  no_empty_tables_of_reachableOK (ReachableOK.alloc 0 ReachableOK.init)

end Mlpt
